import Mathlib

/-
Verification of the TRR source-scraper discovery pipeline
(`tools/trr-source-scraper`): relevance scoring, two-tier search
orchestration, threshold filtering, caching and cross-category
deduplication.

Shallow embedding conventions:
  * Python strings are `List Char`; `x in s` (substring) is `strContains`.
  * Python floats only ever hold small decimal constants and their sums
    here; they are modelled exactly as rationals (`ℚ`).
  * Python dicts that are only built and looked up are association lists
    whose update conses in front (lookup = first match); dicts that are
    iterated keep insertion order as plain association lists.
  * `None`-able values are `Option`; fallible calls are `Except`.
-/

/-! ### Basic string helpers -/

/-- Characters treated as whitespace by Python's `str.strip` / `str.split`
(ASCII subset; the pipeline only manipulates ASCII query/url text). -/
def isPyWhitespace (c : Char) : Bool :=
  c = ' ' ∨ c = '\t' ∨ c = '\n' ∨ c = '\r' ∨ c = '\x0b' ∨ c = '\x0c'

/-- Python `s.lower()` (ASCII-faithful). -/
def lowerStr (s : List Char) : List Char := s.map Char.toLower

/-- Python `s.strip()`. -/
def wsStrip (s : List Char) : List Char :=
  ((s.dropWhile isPyWhitespace).reverse.dropWhile isPyWhitespace).reverse

/-- Python substring test `needle in hay`: `needle` is a contiguous infix
of `hay` (the empty needle is contained in everything). -/
def strContains : List Char → List Char → Bool
  | [], needle => needle.isEmpty
  | c :: t, needle => needle.isPrefixOf (c :: t) || strContains t needle

/-- Python `s.split(sep)[0]` for a single-character separator:
the prefix before the first occurrence of `sep`. -/
def beforeFirst (s : List Char) (sep : Char) : List Char :=
  s.takeWhile (fun c => !(c = sep))

/-- Python `s.split(":")[-1]`: the suffix after the last colon. -/
def afterLastColon (s : List Char) : List Char :=
  (s.reverse.takeWhile (fun c => !(c = ':'))).reverse

/-! ### Data model

`SResult` models the result dicts built by `DuckDuckGoScraper`
(`scrapers/duckduckgo.py`): keys `title`, `url`, `description`,
`display_url`, `domain`, plus the optional keys added later in the
pipeline: `relevance_score` (absent until scored), `_search_tier` and
`_scoped_query` (dict-key absent ≡ `none` / `false`). -/

structure SResult where
  title : List Char
  url : List Char
  description : List Char
  display_url : List Char
  domain : List Char
  relevance_score : Option ℚ
  search_tier : Option (List Char)
  scoped_query : Bool
deriving DecidableEq, Repr

/-- Per-category configuration from `sources.json`:
`{domains: [...], priority: "high" | "medium" | ...}`. -/
structure CatCfg where
  domains : List (List Char)
  priority : List Char
deriving DecidableEq, Repr

/-! ### Relevance scorer (`utils/helpers.py`, `compute_relevance_score`) -/

/-- Derivation of the lower-cased short name used by the scorer:
`technique_name.split(":")[-1].strip().lower()` when the name contains a
colon, else `technique_name.lower()`. -/
def short_name_of (technique_name : List Char) : List Char :=
  if (':') ∈ technique_name then lowerStr (wsStrip (afterLastColon technique_name))
  else lowerStr technique_name

/-- Kernel-computable addition on `ℚ` (`Rat.add_def'` shape); Python's
float additions on the scorer's decimal constants are modelled with it
exactly.  `ratAdd_eq` below identifies it with `+`. -/
def ratAdd (a b : ℚ) : ℚ := mkRat (a.num * b.den + b.num * a.den) (a.den * b.den)

/-- Points awarded for a category's `priority` string
(`'high'` ↦ 0.15, `'medium'` ↦ 0.05, anything else ↦ 0). -/
def priority_points (p : List Char) : ℚ :=
  if p = ("high").toList then mkRat 3 20
  else if p = ("medium").toList then mkRat 1 20
  else 0

/-- The trust-tier loop of `compute_relevance_score`: walk the configured
categories in iteration order and return the points of the first category
whose `domains` list contains the domain (the loop `break`s there). -/
def trust_tier_points (domain : List Char) : List ((List Char) × CatCfg) → ℚ
  | [] => 0
  | (_, cfg) :: rest =>
    if domain ∈ cfg.domains then priority_points cfg.priority
    else trust_tier_points domain rest

/-- `compute_relevance_score` from `utils/helpers.py` (lines 143-206),
with each `score += p` contribution named `s1`…`s7`. -/
def compute_relevance_score (result : SResult) (technique_id technique_name : List Char)
    (mitre_ref_domains : List (List Char))
    (trusted_sources : List ((List Char) × CatCfg)) : ℚ :=
  let short_name := short_name_of technique_name
  let tid_lower := lowerStr technique_id
  let title := lowerStr result.title
  let descr := lowerStr result.description
  let url := lowerStr result.url
  let domain := lowerStr result.domain
  let s1 : ℚ := if strContains title tid_lower then mkRat 3 10 else 0
  let s2 : ℚ := if short_name ≠ [] ∧ strContains title short_name then mkRat 1 4 else 0
  let s3 : ℚ := if strContains descr tid_lower then mkRat 3 20 else 0
  let s4 : ℚ := if short_name ≠ [] ∧ strContains descr short_name then mkRat 1 10 else 0
  let tid_in_path :=
    if ('.') ∈ tid_lower then tid_lower.map (fun c => if c = '.' then '/' else c)
    else tid_lower
  let s5 : ℚ := if strContains url tid_lower ∨ strContains url tid_in_path then mkRat 1 10 else 0
  let s6 : ℚ := if mitre_ref_domains ≠ [] ∧ domain ∈ mitre_ref_domains then mkRat 1 10 else 0
  let s7 : ℚ := if trusted_sources ≠ [] ∧ domain ≠ [] then trust_tier_points domain trusted_sources else 0
  min (ratAdd (ratAdd (ratAdd (ratAdd (ratAdd (ratAdd s1 s2) s3) s4) s5) s6) s7) 1

/-- The scorer's eight signals as a list of point values, with the match
conditions exactly as `compute_relevance_score` tests them (the two
short-name signals require a nonempty derived short name; the two
trust-tier bonuses are a single mutually-exclusive lookup). -/
def signal_points (result : SResult) (technique_id technique_name : List Char)
    (mitre_ref_domains : List (List Char))
    (trusted_sources : List ((List Char) × CatCfg)) : List ℚ :=
  let short_name := short_name_of technique_name
  let tid_lower := lowerStr technique_id
  let title := lowerStr result.title
  let descr := lowerStr result.description
  let url := lowerStr result.url
  let domain := lowerStr result.domain
  let tid_in_path :=
    if ('.') ∈ tid_lower then tid_lower.map (fun c => if c = '.' then '/' else c)
    else tid_lower
  [ if strContains title tid_lower then mkRat 3 10 else 0,
    if short_name ≠ [] ∧ strContains title short_name then mkRat 1 4 else 0,
    if strContains descr tid_lower then mkRat 3 20 else 0,
    if short_name ≠ [] ∧ strContains descr short_name then mkRat 1 10 else 0,
    if strContains url tid_lower ∨ strContains url tid_in_path then mkRat 1 10 else 0,
    if mitre_ref_domains ≠ [] ∧ domain ∈ mitre_ref_domains then mkRat 1 10 else 0,
    if trusted_sources ≠ [] ∧ domain ≠ [] then trust_tier_points domain trusted_sources else 0 ]

/-- Score predicted by the claim's own wording (C1): the short-name signals
award points whenever the (possibly empty) short name is a substring, with
no nonemptiness requirement.  This definition follows the spec's words, to
be compared against `compute_relevance_score`. -/
def claimed_relevance_score (result : SResult) (technique_id technique_name : List Char)
    (mitre_ref_domains : List (List Char))
    (trusted_sources : List ((List Char) × CatCfg)) : ℚ :=
  let short_name := short_name_of technique_name
  let tid_lower := lowerStr technique_id
  let title := lowerStr result.title
  let descr := lowerStr result.description
  let url := lowerStr result.url
  let domain := lowerStr result.domain
  let s1 : ℚ := if strContains title tid_lower then mkRat 3 10 else 0
  let s2 : ℚ := if strContains title short_name then mkRat 1 4 else 0
  let s3 : ℚ := if strContains descr tid_lower then mkRat 3 20 else 0
  let s4 : ℚ := if strContains descr short_name then mkRat 1 10 else 0
  let tid_in_path :=
    if ('.') ∈ tid_lower then tid_lower.map (fun c => if c = '.' then '/' else c)
    else tid_lower
  let s5 : ℚ := if strContains url tid_lower ∨ strContains url tid_in_path then mkRat 1 10 else 0
  let s6 : ℚ := if mitre_ref_domains ≠ [] ∧ domain ∈ mitre_ref_domains then mkRat 1 10 else 0
  let s7 : ℚ := if trusted_sources ≠ [] ∧ domain ≠ [] then trust_tier_points domain trusted_sources else 0
  min (ratAdd (ratAdd (ratAdd (ratAdd (ratAdd (ratAdd s1 s2) s3) s4) s5) s6) s7) 1

/-- Post-scoring boost applied by the orchestrator (`trr_scraper.py`,
lines 1119-1122): results of scoped queries get `+0.20`, capped at `1.0`. -/
def apply_scoped_boost (sq : Bool) (score : ℚ) : ℚ :=
  if sq then min (ratAdd score (mkRat 1 5)) 1 else score

/-! ### URL helpers (`utils/helpers.py`)

`urlsplit` models `urllib.parse.urlsplit` (Python standard library, used
via `urlparse` — the pipeline never reads the `params` component) for the
http(s)-style URLs the pipeline handles: fragment/scheme/netloc/query
splitting in CPython's order. -/

structure UrlParts where
  scheme : List Char
  netloc : List Char
  path : List Char
  query : List Char
  fragment : List Char
deriving DecidableEq, Repr

/-- Characters allowed in a URL scheme. -/
def schemeChar (c : Char) : Bool :=
  c.isAlpha ∨ c.isDigit ∨ c = '+' ∨ c = '-' ∨ c = '.'

/-- Python `s.split(sep, 1)[1]` when `sep` occurs, else `[]`. -/
def afterFirst (s : List Char) (sep : Char) : List Char :=
  if sep ∈ s then s.drop ((beforeFirst s sep).length + 1) else []

def urlsplit (url : List Char) : UrlParts :=
  let pre := beforeFirst url ':'
  let hasScheme := (':') ∈ url ∧ pre ≠ [] ∧ (pre.headD ' ').isAlpha ∧ pre.all schemeChar
  let scheme := if hasScheme then lowerStr pre else []
  let u1 := if hasScheme then afterFirst url ':' else url
  let hasNetloc := List.isPrefixOf (("//").toList) u1
  let u2 := if hasNetloc then u1.drop 2 else u1
  let netloc := if hasNetloc then u2.takeWhile (fun c => !(c = '/' ∨ c = '?' ∨ c = '#')) else []
  let u3 := if hasNetloc then u2.drop netloc.length else u1
  let frag := afterFirst u3 '#'
  let u4 := beforeFirst u3 '#'
  let query := afterFirst u4 '?'
  let path := beforeFirst u4 '?'
  ⟨scheme, netloc, path, query, frag⟩

/-- `extract_domain` (helpers.py line 209): `urlparse(url).netloc.lower()`. -/
def extract_domain (url : List Char) : List Char := lowerStr (urlsplit url).netloc

/-- `is_valid_url` (helpers.py line 218): scheme in {http, https} and a
nonempty netloc. -/
def is_valid_url (url : List Char) : Bool :=
  ((urlsplit url).scheme = ("http").toList ∨ (urlsplit url).scheme = ("https").toList)
    ∧ (urlsplit url).netloc ≠ []

/-- Splitting a character list at every occurrence of characters satisfying
`p` (Python `str.split` produces the nonempty pieces after filtering). -/
def splitP (p : Char → Bool) : List Char → List (List Char)
  | [] => [[]]
  | c :: rest =>
    match splitP p rest with
    | [] => if p c then [[], []] else [[c]]
    | h :: t => if p c then [] :: h :: t else (c :: h) :: t

/-- `is_generic_landing_page` (helpers.py lines 116-140). -/
def is_generic_landing_page (url : List Char) : Bool :=
  let parsed := urlsplit url
  let path := (parsed.path.reverse.dropWhile (fun c => c = '/')).reverse
  let generic : List (List Char) :=
    [[], ("/en-us").toList, ("/en-us/docs").toList, ("/en-us/previous-versions").toList,
     ("/html/archives.html").toList, ("/docs").toList, ("/blog").toList, ("/resources").toList]
  if lowerStr path ∈ generic then true
  else
    let segments := (splitP (fun c => c = '/') path).filter (fun s => s ≠ [])
    if segments.length ≤ 1 ∧ parsed.query = [] then true else false

/-- Python `str.isprintable` restricted to ASCII (true for all characters
the pipeline's query/URL strings contain). -/
def isPyPrintable (c : Char) : Bool := 32 ≤ c.val ∧ c.val ≠ 127

/-- Python slice `t[:k]` for a possibly negative bound `k`. -/
def pyTakeSlice (t : List Char) (k : Int) : List Char :=
  if 0 ≤ k then t.take k.toNat else t.take (t.length - (-k).toNat)

/-- `clean_text` (helpers.py lines 227-236). -/
def clean_text (text : List Char) (max_length : Option ℕ) : List Char :=
  let t := List.intercalate ([' ']) ((splitP isPyWhitespace text).filter (fun s => s ≠ []))
  let t := t.filter isPyPrintable
  let t :=
    match max_length with
    | some m => if m ≠ 0 ∧ t.length > m then pyTakeSlice t ((m : Int) - 3) ++ ("...").toList else t
    | none => t
  wsStrip t

/-! ### Query builder and two-tier orchestrator (`scrapers/duckduckgo.py`)

The external search provider (`DuckDuckGoScraper.search`) is passed in as
a function `srch : query → max_results → results`; its results are the
five-key dicts the scraper builds (`RawResult`), which carry neither a
`_search_tier` nor a `_scoped_query` key. -/

structure RawResult where
  title : List Char
  url : List Char
  description : List Char
  display_url : List Char
  domain : List Char
deriving DecidableEq, Repr

/-- A raw scraper dict viewed as a pipeline result: no score, no tier tag,
no scoped-query mark. -/
def RawResult.toSResult (r : RawResult) : SResult :=
  ⟨r.title, r.url, r.description, r.display_url, r.domain, none, none, false⟩

/-- Tagging `r['_search_tier'] = 'tier1'`. -/
def tier1Result (r : RawResult) : SResult :=
  ⟨r.title, r.url, r.description, r.display_url, r.domain, none, some (("tier1").toList), false⟩

/-- Tagging `r['_search_tier'] = 'tier2'`, optionally `r['_scoped_query'] = True`. -/
def tier2Result (sq : Bool) (r : RawResult) : SResult :=
  ⟨r.title, r.url, r.description, r.display_url, r.domain, none, some (("tier2").toList), sq⟩

/-- Dedup-by-url loop of `search_with_site_filter` (duckduckgo.py lines 235-239). -/
def dedupRawByUrl (seen : List (List Char)) : List RawResult → List RawResult
  | [] => []
  | r :: rest =>
    if r.url ∈ seen then dedupRawByUrl seen rest
    else r :: dedupRawByUrl (r.url :: seen) rest

/-- `DuckDuckGoScraper.search_with_site_filter` (duckduckgo.py lines 211-240). -/
def search_with_site_filter (srch : List Char → ℕ → List RawResult)
    (query : List Char) (sites : List (List Char)) (max_results : ℕ) : List RawResult :=
  let full_query :=
    if sites ≠ [] then
      query ++ (" (").toList
        ++ List.intercalate ((" OR ").toList) ((sites.take 5).map (fun s => ("site:").toList ++ s))
        ++ (")").toList
    else query
  dedupRawByUrl [] (srch full_query max_results)

/-- `_build_queries` (duckduckgo.py lines 243-280). -/
def build_queries (technique_id technique_name category_name extra : List Char) : List (List Char) :=
  let short_name :=
    if (':') ∈ technique_name then wsStrip (afterLastColon technique_name) else technique_name
  let common :=
    [ ("\"").toList ++ technique_id ++ ("\" \"").toList ++ short_name ++ ("\"").toList ++ extra,
      ("\"").toList ++ short_name ++ ("\" detection").toList ++ extra ]
  let specific :=
    if category_name = ("security_research").toList then
      [("\"").toList ++ short_name ++ ("\" attack analysis write-up").toList ++ extra]
    else if category_name = ("microsoft_docs").toList then
      [("\"").toList ++ short_name ++ ("\" site:learn.microsoft.com OR site:techcommunity.microsoft.com").toList ++ extra]
    else if category_name = ("conferences").toList then
      [("\"").toList ++ short_name ++ ("\" presentation talk defcon OR blackhat").toList ++ extra]
    else if category_name = ("github").toList then
      [("\"").toList ++ technique_id ++ ("\" detection rule").toList ++ extra]
    else if category_name = ("sigma_rules").toList then
      [("site:github.com/SigmaHQ/sigma \"").toList ++ technique_id ++ ("\"").toList]
    else if category_name = ("lolbas_gtfobins").toList then
      [("\"").toList ++ short_name ++ ("\" LOLBAS OR GTFOBins").toList ++ extra]
    else if category_name = ("academic").toList then
      [("\"").toList ++ short_name ++ ("\" detection research paper").toList ++ extra]
    else []
  specific ++ common

/-- Batches of five tier-2 domains
(`range(0, max(len(cat_tier2), 1), 5)` slicing, nonempty input). -/
def chunks5 : List (List Char) → List (List (List Char))
  | [] => []
  | [a] => [[a]]
  | [a, b] => [[a, b]]
  | [a, b, c] => [[a, b, c]]
  | [a, b, c, d] => [[a, b, c, d]]
  | a :: b :: c :: d :: e :: rest => [a, b, c, d, e] :: chunks5 rest

/-- Tier-1 loop of `search_technique_sources` (duckduckgo.py lines 360-371):
one site-scoped query per tier-1 domain, max two results, tagged tier1. -/
def catTier1Results (srch : List Char → ℕ → List RawResult)
    (short_name technique_id extra : List Char) (cat_tier1 : List (List Char)) : List SResult :=
  (cat_tier1.map (fun domain =>
    let q0 := ("\"").toList ++ short_name ++ ("\" site:").toList ++ domain
    let q1 :=
      if short_name.length < 4 then
        ("\"").toList ++ short_name ++ ("\" ").toList ++ technique_id ++ (" site:").toList ++ domain
      else q0
    (srch (q1 ++ extra) 2).map tier1Result)).flatten

/-- Tier-2 loop of `search_technique_sources` (duckduckgo.py lines 373-403):
with no tier-2 domains the category queries run unscoped (and untagged as
scoped); otherwise each batch runs up to three queries, executing a query
directly — and marking its results `_scoped_query` — exactly when the query
already contains `site:`. -/
def catTier2Results (srch : List Char → ℕ → List RawResult)
    (queries : List (List Char)) (cat_tier2 : List (List Char))
    (max_per_category : ℕ) : List SResult :=
  if cat_tier2 = [] then
    ((queries.take 3).map (fun q => (srch q max_per_category).map (tier2Result false))).flatten
  else
    ((chunks5 cat_tier2).map (fun batch =>
      ((queries.take 3).map (fun q =>
        if strContains q (("site:").toList) then
          (srch q max_per_category).map (tier2Result true)
        else
          (search_with_site_filter srch q batch max_per_category).map (tier2Result false))).flatten)).flatten

/-- The within-category stable sort putting tier-1 results first
(`category_results.sort(key=lambda r: 0 if r.get('_search_tier') == 'tier1' else 1)`). -/
def stablePartTier1 (rs : List SResult) : List SResult :=
  rs.filter (fun r => r.search_tier = some (("tier1").toList))
    ++ rs.filter (fun r => !(r.search_tier = some (("tier1").toList)))

/-- Within-category URL dedup, first-claim-wins against earlier categories,
and landing-page filter (duckduckgo.py lines 409-420); returns the kept
results and the category's `seen` set. -/
def dedupFilterCat (global_seen : List (List Char)) :
    List SResult → List (List Char) → (List SResult × List (List Char))
  | [], seen => ([], seen)
  | r :: rest, seen =>
    if r.url ∈ seen ∨ r.url ∈ global_seen then dedupFilterCat global_seen rest seen
    else if is_generic_landing_page r.url then dedupFilterCat global_seen rest seen
    else
      let p := dedupFilterCat global_seen rest (r.url :: seen)
      (r :: p.1, p.2)

/-- First-occurrence deduplication, modelling the construction of the
`mitre_ref_domains` set (Python set iteration order is unspecified; the
claims proved below do not depend on it). -/
def dedupStrs (seen : List (List Char)) : List (List Char) → List (List Char)
  | [] => []
  | s :: rest => if s ∈ seen then dedupStrs seen rest else s :: dedupStrs (s :: seen) rest

/-- Per-category loop of `search_technique_sources` (duckduckgo.py
lines 346-431), threaded through `global_seen_urls`. -/
def stsGo (srch : List Char → ℕ → List RawResult)
    (technique_id technique_name short_name extra : List Char)
    (mitre_ref_domains tier1_set : List (List Char)) (max_per_category : ℕ) :
    List ((List Char) × CatCfg) → List (List Char) → List ((List Char) × List SResult)
  | [], _ => []
  | (cname, cfg) :: rest, global_seen =>
    let cat_tier1 := cfg.domains.filter (fun d => decide (d ∈ tier1_set))
    let cat_tier2 := cfg.domains.filter (fun d => !(decide (d ∈ tier1_set)))
    let cat_tier2 := cat_tier2
      ++ mitre_ref_domains.filter (fun d => !(decide (d ∈ cat_tier1)) ∧ !(decide (d ∈ cat_tier2)))
    let t1res := catTier1Results srch short_name technique_id extra cat_tier1
    let queries := build_queries technique_id technique_name cname extra
    let t2res := catTier2Results srch queries cat_tier2 max_per_category
    let category_results := stablePartTier1 (t1res ++ t2res)
    let p := dedupFilterCat global_seen category_results []
    (cname, p.1.take max_per_category)
      :: stsGo srch technique_id technique_name short_name extra mitre_ref_domains tier1_set
           max_per_category rest (global_seen ++ p.2)

/-- `search_technique_sources` (duckduckgo.py lines 283-436).
`mitre_ref_urls` are the `url` fields of the MITRE reference dicts
(missing key ≡ empty string). -/
def search_technique_sources (srch : List Char → ℕ → List RawResult)
    (technique_id technique_name : List Char)
    (categories : List ((List Char) × CatCfg))
    (max_per_category : ℕ) (extra_terms : List Char)
    (mitre_ref_urls : List (List Char))
    (tier1_domains : List (List Char)) : List ((List Char) × List SResult) :=
  let extra :=
    if extra_terms ≠ [] ∧ wsStrip extra_terms ≠ [] then (' ') :: wsStrip extra_terms else []
  let short_name :=
    if (':') ∈ technique_name then wsStrip (afterLastColon technique_name) else technique_name
  let mitre_ref_domains :=
    dedupStrs [] (((mitre_ref_urls.filter (fun u => u ≠ [])).map extract_domain).filter (fun d => d ≠ []))
  stsGo srch technique_id technique_name short_name extra mitre_ref_domains tier1_domains
    max_per_category categories []

/-! ### Scoring, sorting and threshold filtering (`trr_scraper.py` lines 1097-1136) -/

/-- A result with its freshly computed relevance score attached. -/
def withScore (r : SResult) (s : ℚ) : SResult :=
  ⟨r.title, r.url, r.description, r.display_url, r.domain, some s, r.search_tier, r.scoped_query⟩

/-- Stable insertion of a result into a list sorted by descending score
(key `r.get('relevance_score', 0)`). -/
def insertDesc (r : SResult) : List SResult → List SResult
  | [] => [r]
  | x :: xs =>
    if (x.relevance_score.getD 0) ≤ (r.relevance_score.getD 0) then r :: x :: xs
    else x :: insertDesc r xs

/-- Python's stable `list.sort(key=relevance_score, reverse=True)`. -/
def sortScoreDesc (rs : List SResult) : List SResult := rs.foldr insertDesc []

/-- Total number of results across categories. -/
def totalLen (rs : List ((List Char) × List SResult)) : ℕ :=
  (rs.map (fun p => p.2.length)).sum

/-- The score-boost-sort-filter block of `main` (trr_scraper.py lines
1112-1131): annotate every result with its relevance score, add the
scoped-query boost, sort each category by descending score, drop results
below `min_score`, and report `pre_filter_total - filtered_total`. -/
def score_sort_filter (search_results : List ((List Char) × List SResult))
    (technique_id technique_name : List Char)
    (mitre_ref_domains : List (List Char))
    (trusted_sources : List ((List Char) × CatCfg))
    (min_score : ℚ) : (List ((List Char) × List SResult)) × ℕ :=
  let scored := search_results.map (fun p =>
    (p.1, p.2.map (fun r =>
      withScore r (apply_scoped_boost r.scoped_query
        (compute_relevance_score r technique_id technique_name mitre_ref_domains trusted_sources)))))
  let final := scored.map (fun p =>
    (p.1, (sortScoreDesc p.2).filter (fun r => decide (min_score ≤ r.relevance_score.getD 0))))
  (final, totalLen search_results - totalLen final)

/-! ### Deduplicator (`utils/helpers.py`, `deduplicate_results`, lines 368-548)

The `re.search` patterns used by the dedup helpers are hand-compiled: each
pattern is tried at every start position left to right (first match wins);
`[^/]+` followed by `/` and `\d+` followed by a non-digit are deterministic
(maximal-run) matches, and the alternations' branches start with distinct
literals, so no backtracking across the committed choices can occur. -/

/-- Matching a literal at the current position, returning the rest. -/
def eatLit (lit s : List Char) : Option (List Char) :=
  if List.isPrefixOf lit s then some (s.drop lit.length) else none

/-- Matching `[^/]+/`: a nonempty run of non-slash characters followed by a
slash; returns (segment, rest-after-slash). -/
def eatSeg (s : List Char) : Option ((List Char) × List Char) :=
  let seg := s.takeWhile (fun c => !(c = '/'))
  if seg = [] then none
  else if seg.length < s.length then some (seg, s.drop (seg.length + 1))
  else none

/-- Matching the final `(.+)` group: the maximal nonempty run of
non-newline characters. -/
def eatDotPlus (s : List Char) : Option (List Char) :=
  let r := s.takeWhile (fun c => !(c = '\n'))
  if r = [] then none else some r

/-- Matching `\d+`: a maximal nonempty digit run. -/
def eatDigits (s : List Char) : Option ((List Char) × List Char) :=
  let d := s.takeWhile Char.isDigit
  if d = [] then none else some (d, s.drop d.length)

/-- Running a position parser at every suffix, leftmost match first
(`re.search` semantics). -/
def scanSuffixes (f : List Char → Option α) : List Char → Option α
  | [] => none
  | c :: rest =>
    match f (c :: rest) with
    | some v => some v
    | none => scanSuffixes f rest

/-- Pattern `github\.com/[^/]+/[^/]+/(?:blob|tree)/[^/]+/(.+)` at one position. -/
def githubKeyAt (s : List Char) : Option (List Char) := do
  let s ← eatLit (("github.com/").toList) s
  let (_, s) ← eatSeg s
  let (_, s) ← eatSeg s
  let s ←
    match eatLit (("blob/").toList) s with
    | some r => some r
    | none => eatLit (("tree/").toList) s
  let (_, s) ← eatSeg s
  eatDotPlus s

/-- Pattern `raw\.githubusercontent\.com/[^/]+/[^/]+/[^/]+/(.+)` at one position. -/
def rawGithubKeyAt (s : List Char) : Option (List Char) := do
  let s ← eatLit (("raw.githubusercontent.com/").toList) s
  let (_, s) ← eatSeg s
  let (_, s) ← eatSeg s
  let (_, s) ← eatSeg s
  eatDotPlus s

/-- `_github_file_key` (helpers.py lines 404-416): strip the first `#` and
`?` onwards, then extract the repository-relative file path. -/
def github_file_key (url : List Char) : Option (List Char) :=
  let clean := beforeFirst (beforeFirst url '#') '?'
  match scanSuffixes githubKeyAt clean with
  | some k => some k
  | none => scanSuffixes rawGithubKeyAt clean

/-- Pattern `github\.com/([^/]+)/` at one position. -/
def githubOrgAt (s : List Char) : Option (List Char) := do
  let s ← eatLit (("github.com/").toList) s
  let (seg, _) ← eatSeg s
  some seg

/-- `_github_org` (helpers.py lines 418-420): lower-cased organization
segment, `''` when the URL is not a github.com URL. -/
def github_org (url : List Char) : List Char :=
  match scanSuffixes githubOrgAt url with
  | some o => lowerStr o
  | none => []

/-- `_PREFERRED_GITHUB_ORGS` (helpers.py lines 373-376). -/
def PREFERRED_GITHUB_ORGS : List (List Char) :=
  [("redcanaryco").toList, ("sigmahq").toList, ("mitre-attack").toList, ("mitre").toList,
   ("elastic").toList, ("splunk").toList, ("microsoft").toList, ("neo23x0").toList]

/-- `_github_org_priority`: index in the preference list, list length when
absent (`list.index` + `ValueError` fallback). -/
def github_org_priority (org : List Char) : ℕ := PREFERRED_GITHUB_ORGS.indexOf org

/-- Pattern `arxiv\.org/(?:abs|pdf|html)/(\d+\.\d+)` at one position. -/
def arxivAt (s : List Char) : Option (List Char) := do
  let s ← eatLit (("arxiv.org/").toList) s
  let s ←
    match eatLit (("abs/").toList) s with
    | some r => some r
    | none =>
      match eatLit (("pdf/").toList) s with
      | some r => some r
      | none => eatLit (("html/").toList) s
  let (d1, s) ← eatDigits s
  let s ← eatLit (['.']) s
  let (d2, _) ← eatDigits s
  some (d1 ++ ['.'] ++ d2)

/-- `_arxiv_id` (helpers.py lines 428-430). -/
def arxiv_id (url : List Char) : Option (List Char) := scanSuffixes arxivAt url

/-- Pattern `ieeexplore\.ieee\.org/(?:document|iel\d+/[^/]+/[^/]+)/(\d+)` at
one position. -/
def ieeeAt (s : List Char) : Option (List Char) := do
  let s ← eatLit (("ieeexplore.ieee.org/").toList) s
  let r ←
    match eatLit (("document").toList) s with
    | some r => some r
    | none => do
      let r ← eatLit (("iel").toList) s
      let (_, r) ← eatDigits r
      let r ← eatLit (['/']) r
      let (_, r) ← eatSeg r
      let seg2 := r.takeWhile (fun c => !(c = '/'))
      if seg2 = [] then none else some (r.drop seg2.length)
  let r ← eatLit (['/']) r
  let (d, _) ← eatDigits r
  some d

/-- `_ieee_id` (helpers.py lines 432-436). -/
def ieee_id (url : List Char) : Option (List Char) := scanSuffixes ieeeAt url

/-- `_normalize_title` (helpers.py lines 438-439):
`re.sub(r'[^a-z0-9\s]', '', title.lower()).strip()`. -/
def normalize_title (title : List Char) : List Char :=
  wsStrip ((lowerStr title).filter (fun c => c.isLower ∨ c.isDigit ∨ isPyWhitespace c))

/-! ### `difflib.SequenceMatcher` (Python standard library)

Pass 3 compares titles with `SequenceMatcher(None, a, b).ratio()`.  The
matcher is embedded for `isjunk=None`: `b2j` maps an element of `b` to its
ascending index list, with "popular" elements dropped under the autojunk
heuristic (`len(b) >= 200` and more than `len(b)//100 + 1` occurrences);
the junk set itself is empty, so the junk extension loops of
`find_longest_match` never fire and are omitted, while the non-junk
extension loops are kept.  `smMatchesF` carries fuel that strictly exceeds
the recursion depth (each split removes at least one matched element from
the region, so depth ≤ region length). -/

/-- Autojunk popularity test for an element of `b`. -/
def isPopular (b : List Char) (c : Char) : Bool :=
  b.length ≥ 200 ∧ b.count c > b.length / 100 + 1

/-- `self.b2j`: ascending indices of `c` in `b`, popular elements removed. -/
def b2j (b : List Char) (c : Char) : List ℕ :=
  if isPopular b c then [] else (b.enum.filter (fun p => p.2 = c)).map Prod.fst

/-- Best match triple of `find_longest_match`. -/
structure FlmBest where
  besti : ℕ
  bestj : ℕ
  bestsize : ℕ
deriving DecidableEq, Repr

/-- Inner loop of `find_longest_match` over the candidate `j` positions of
one `i` (ascending; `j >= bhi` breaks out as in the source). -/
def flmInner (j2len : ℕ → ℕ) (i blo bhi : ℕ) :
    List ℕ → (ℕ → ℕ) → FlmBest → ((ℕ → ℕ) × FlmBest)
  | [], newj2len, best => (newj2len, best)
  | j :: js, newj2len, best =>
    if j < blo then flmInner j2len i blo bhi js newj2len best
    else if bhi ≤ j then (newj2len, best)
    else
      let k := (if j = 0 then 0 else j2len (j - 1)) + 1
      let newj2len' := fun x => if x = j then k else newj2len x
      let best' := if k > best.bestsize then ⟨i + 1 - k, j + 1 - k, k⟩ else best
      flmInner j2len i blo bhi js newj2len' best'

/-- Outer loop of `find_longest_match` over `i` in `range(alo, ahi)`. -/
def flmOuter (a : List Char) (bj : Char → List ℕ) (blo bhi : ℕ) :
    List ℕ → (ℕ → ℕ) → FlmBest → FlmBest
  | [], _, best => best
  | i :: is, j2len, best =>
    let r := flmInner j2len i blo bhi (bj (a.getD i ' ')) (fun _ => 0) best
    flmOuter a bj blo bhi is r.1 r.2

/-- The non-junk leftward extension loop of `find_longest_match`; the first
argument is fuel, called with `besti` itself: each iteration needs
`alo < besti` and decrements `besti`, so fuel `besti` can only run out when
`besti` has reached 0, where the loop condition fails anyway. -/
def extendLeft (a b : List Char) (alo blo : ℕ) : ℕ → ℕ → ℕ → ℕ → FlmBest
  | 0, besti, bestj, bestsize => ⟨besti, bestj, bestsize⟩
  | fuel + 1, besti, bestj, bestsize =>
    if alo < besti ∧ blo < bestj ∧ a.getD (besti - 1) ' ' = b.getD (bestj - 1) ' ' then
      extendLeft a b alo blo fuel (besti - 1) (bestj - 1) (bestsize + 1)
    else ⟨besti, bestj, bestsize⟩

/-- The non-junk rightward extension loop of `find_longest_match`; fuel is
`bhi`: each iteration needs `bestj + bestsize < bhi` and increments
`bestsize`, so after `bhi` iterations the condition must have failed. -/
def extendRight (a b : List Char) (ahi bhi : ℕ) (besti bestj : ℕ) : ℕ → ℕ → ℕ
  | 0, bestsize => bestsize
  | fuel + 1, bestsize =>
    if besti + bestsize < ahi ∧ bestj + bestsize < bhi
        ∧ a.getD (besti + bestsize) ' ' = b.getD (bestj + bestsize) ' ' then
      extendRight a b ahi bhi besti bestj fuel (bestsize + 1)
    else bestsize

/-- `SequenceMatcher.find_longest_match` on `a[alo:ahi]` × `b[blo:bhi]`. -/
def find_longest_match (a b : List Char) (alo ahi blo bhi : ℕ) : FlmBest :=
  let best := flmOuter a (b2j b) blo bhi (List.range' alo (ahi - alo)) (fun _ => 0) ⟨alo, blo, 0⟩
  let l := extendLeft a b alo blo best.besti best.besti best.bestj best.bestsize
  ⟨l.besti, l.bestj, extendRight a b ahi bhi l.besti l.bestj bhi l.bestsize⟩

/-- Total matched size over `get_matching_blocks` (the queue-based region
splitting visits each side region independently, so the fuelled recursion
below computes the same total). -/
def smMatchesF : ℕ → List Char → List Char → ℕ → ℕ → ℕ → ℕ → ℕ
  | 0, _, _, _, _, _, _ => 0
  | fuel + 1, a, b, alo, ahi, blo, bhi =>
    let m := find_longest_match a b alo ahi blo bhi
    if m.bestsize = 0 then 0
    else
      m.bestsize + smMatchesF fuel a b alo m.besti blo m.bestj
        + smMatchesF fuel a b (m.besti + m.bestsize) ahi (m.bestj + m.bestsize) bhi

/-- `SequenceMatcher(None, a, b).ratio()`:
`2 * matches / (len(a) + len(b))`, or `1.0` for two empty sequences. -/
def sm_ratio (a b : List Char) : ℚ :=
  if a.length + b.length = 0 then 1
  else mkRat (2 * smMatchesF (a.length + 1) a b 0 a.length 0 b.length) (a.length + b.length)

/-! ### The three dedup passes -/

/-- One (category, result) pair of the flattened pool. -/
abbrev DedupItem := (List Char) × SResult

/-- Flattening `results.items()` in insertion order (helpers.py lines 443-446). -/
def flattenResults (results : List ((List Char) × List SResult)) : List DedupItem :=
  (results.map (fun p => p.2.map (fun r => (p.1, r)))).flatten

/-- Association-list lookup for the pass maps (`dict` lookup). -/
def lookupA (m : List ((List Char) × DedupItem)) (k : List Char) : Option DedupItem :=
  (m.find? (fun p => decide (p.1 = k))).map (fun p => p.2)

/-- Pass 1 — GitHub fork dedup (helpers.py lines 448-471): group by file
key; a new candidate replaces the map holder only when its organization has
strictly higher preference, the loser's URL joins `removed_urls`. -/
def pass1 : List DedupItem → List ((List Char) × DedupItem) → List (List Char) → List (List Char)
  | [], _, removed => removed
  | (cat, r) :: rest, m, removed =>
    match github_file_key r.url with
    | none => pass1 rest m removed
    | some fkey =>
      match lookupA m fkey with
      | none => pass1 rest ((fkey, (cat, r)) :: m) removed
      | some er =>
        if github_org_priority (github_org r.url) < github_org_priority (github_org er.2.url) then
          pass1 rest ((fkey, (cat, r)) :: m) (er.2.url :: removed)
        else
          pass1 rest m (r.url :: removed)

/-- Pass 2 — academic paper dedup (helpers.py lines 473-514): items whose
URL is already removed are skipped; arXiv and IEEE ids are grouped in two
maps, keeping the strictly higher-scored candidate. -/
def pass2 : List DedupItem → List ((List Char) × DedupItem) → List ((List Char) × DedupItem) →
    List (List Char) → List (List Char)
  | [], _, _, removed => removed
  | (cat, r) :: rest, am, im, removed =>
    if r.url ∈ removed then pass2 rest am im removed
    else
      match arxiv_id r.url with
      | some aid =>
        match lookupA am aid with
        | none => pass2 rest ((aid, (cat, r)) :: am) im removed
        | some er =>
          if er.2.relevance_score.getD 0 < r.relevance_score.getD 0 then
            pass2 rest ((aid, (cat, r)) :: am) im (er.2.url :: removed)
          else pass2 rest am im (r.url :: removed)
      | none =>
        match ieee_id r.url with
        | some iid =>
          match lookupA im iid with
          | none => pass2 rest am ((iid, (cat, r)) :: im) removed
          | some er =>
            if er.2.relevance_score.getD 0 < r.relevance_score.getD 0 then
              pass2 rest am ((iid, (cat, r)) :: im) (er.2.url :: removed)
            else pass2 rest am im (r.url :: removed)
        | none => pass2 rest am im removed

/-- The inner `for existing ... / break` scan of pass 3: the first
previously-accepted title with similarity above 0.90 decides which URL is
removed (the lower-scored of the pair; ties remove the new one). -/
def pass3Scan (t : List Char) (score : ℚ) (url : List Char) :
    List ((List Char) × (List Char) × ℚ) → Option (List Char)
  | [] => none
  | (et, eu, es) :: rest =>
    if sm_ratio t et > mkRat 9 10 then some (if es < score then eu else url)
    else pass3Scan t score url rest

/-- Pass 3 — fuzzy title dedup (helpers.py lines 516-538): skip removed
URLs and short normalized titles; on a similar pair remove one URL and do
not register the survivor's title (the `for … else` appends only when no
similar title was found). -/
def pass3 : List DedupItem → List ((List Char) × (List Char) × ℚ) → List (List Char) → List (List Char)
  | [], _, removed => removed
  | (_, r) :: rest, seen, removed =>
    if r.url ∈ removed then pass3 rest seen removed
    else
      let t := normalize_title r.title
      if t.length < 10 then pass3 rest seen removed
      else
        match pass3Scan t (r.relevance_score.getD 0) r.url seen with
        | some u => pass3 rest seen (u :: removed)
        | none => pass3 rest (seen ++ [(t, r.url, r.relevance_score.getD 0)]) removed

/-- `deduplicate_results` (helpers.py lines 379-548): run the three passes
over the flattened pool, then rebuild every category without the removed
URLs. -/
def deduplicate_results (results : List ((List Char) × List SResult)) :
    List ((List Char) × List SResult) :=
  let all_items := flattenResults results
  let removed := pass3 all_items [] (pass2 all_items [] [] (pass1 all_items [] []))
  results.map (fun p => (p.1, p.2.filter (fun r => !(decide (r.url ∈ removed)))))

/-! ### Search executor and cache (`scrapers/duckduckgo.py` lines 39-133) -/

/-- A raw item of the `ddgs` provider: the fields `DuckDuckGoScraper.
_search_via_ddgs` reads (`href`, `url`, `title`, `body`, each with the
`.get` default already applied: `title` defaults to `'Untitled'`, the
others to `''`). -/
structure DdgsRawItem where
  href : List Char
  url : List Char
  title : List Char
  body : List Char
deriving DecidableEq, Repr

/-- The result-building loop of `_search_via_ddgs` (lines 97-110):
`url = r.get('href','') or r.get('url','')`; items with a missing or
invalid URL are discarded. -/
def ddgs_process (items : List DdgsRawItem) : List RawResult :=
  (items.map (fun it =>
    let url := if it.href ≠ [] then it.href else it.url
    if url = [] ∨ !(is_valid_url url) then []
    else [⟨clean_text it.title none, url, clean_text it.body (some 300),
           extract_domain url, extract_domain url⟩])).flatten

/-- `_search_via_html` (lines 116-133): the HTTP fetch (`session.get` +
`raise_for_status`) either fails — `requests.RequestException`, caught and
turned into `[]` — or yields an HTML page handed to `_parse_html_results`
(BeautifulSoup extraction, an external library modelled as the function
parameter `parseHtml`). -/
def search_via_html (htmlGet : List Char → Except (List Char) (List Char))
    (parseHtml : List Char → ℕ → List RawResult)
    (query : List Char) (max_results : ℕ) : List RawResult :=
  match htmlGet query with
  | Except.ok html => parseHtml html max_results
  | Except.error _ => []

/-- `_search_via_ddgs` (lines 94-114): any exception from the `ddgs`
provider (`Except.error`) is caught and the HTML fallback is run on the
same query. -/
def search_via_ddgs (ddgsText : List Char → ℕ → Except (List Char) (List DdgsRawItem))
    (htmlGet : List Char → Except (List Char) (List Char))
    (parseHtml : List Char → ℕ → List RawResult)
    (query : List Char) (max_results : ℕ) : List RawResult :=
  match ddgsText query max_results with
  | Except.ok items => ddgs_process items
  | Except.error _ => search_via_html htmlGet parseHtml query max_results

/-- Modelled from the spec: a cache entry (spec §3 `CacheEntry`): the
stored sequence plus its `storedAt` timestamp (seconds).  The cache module
itself (`get_cached` / `set_cached`, imported by `scrapers/duckduckgo.py`
from `utils`) is not present under `src/`. -/
structure CacheEntry where
  value : List RawResult
  storedAt : ℕ
deriving DecidableEq, Repr

/-- Modelled from the spec: `get_cached` — on a live (non-expired) hit
return the stored sequence, otherwise nothing; an entry is live while the
elapsed time does not exceed the TTL (`ttl_days`, expressed in days of
86400 seconds). -/
def get_cached (cache : List ((List Char) × CacheEntry)) (key : List Char)
    (now ttl_days : ℕ) : Option (List RawResult) :=
  match cache.find? (fun p => decide (p.1 = key)) with
  | some p => if now - p.2.storedAt ≤ ttl_days * 86400 then some p.2.value else none
  | none => none

/-- Modelled from the spec: `set_cached` — store the sequence under the key
at the current time (newest entry shadows older ones). -/
def set_cached (cache : List ((List Char) × CacheEntry)) (key : List Char)
    (value : List RawResult) (now : ℕ) : List ((List Char) × CacheEntry) :=
  (key, ⟨value, now⟩) :: cache

/-- `DuckDuckGoScraper.search` (lines 61-92).  `keyFn` abstracts
`_cache_key` (`'ddg_' + hashlib.md5(query).hexdigest()`, a stable function
of the query string; MD5 comes from Python's `hashlib`, outside this
repository).  `doSearch` is the `_search_via_ddgs` / `_search_via_html`
dispatch on lines 83-86.  Returns the results, the updated cache, and how
many times the underlying search path ran (each such run is preceded by
the rate-limiter wait). -/
def scraper_search (use_cache : Bool) (keyFn : List Char → List Char)
    (doSearch : List Char → ℕ → List RawResult)
    (cache : List ((List Char) × CacheEntry)) (now : ℕ)
    (query : List Char) (max_results : ℕ) :
    List RawResult × List ((List Char) × CacheEntry) × ℕ :=
  if use_cache then
    match get_cached cache (keyFn query) now 1 with
    | some cached => (cached, cache, 0)
    | none =>
      let results := doSearch query max_results
      (results, if results ≠ [] then set_cached cache (keyFn query) results now else cache, 1)
  else
    (doSearch query max_results, cache, 1)

/-! ### Pass-1 analysis helpers (C7)

`pass1Proj` is the single-key projection of the Pass-1 fold; `group_winner`
is the candidate the amended claim says survives: the first candidate of
the group attaining the minimal preference index. -/

/-- Preference index of a candidate's hosting organization. -/
def prioOf (it : DedupItem) : ℕ := github_org_priority (github_org it.2.url)

/-- The Pass-1 group of a file key `k`: the candidates of the pool whose
code-hosting URL resolves to the repository-relative path `k`. -/
def group_of (items : List DedupItem) (k : List Char) : List DedupItem :=
  items.filter (fun it => decide (github_file_key it.2.url = some k))

/-- Minimum preference index over a group.  The fold base is the
not-in-list index, which bounds every `github_org_priority`, so for a
nonempty group the fold is the true minimum. -/
def group_min_prio (g : List DedupItem) : ℕ :=
  (g.map prioOf).foldr min PREFERRED_GITHUB_ORGS.length

/-- The first candidate of a group attaining the minimal preference index. -/
def group_winner (g : List DedupItem) : Option DedupItem :=
  g.find? (fun it => decide (prioOf it = group_min_prio g))

/-- Single-key projection of the Pass-1 fold: the evolving map entry for
key `k` together with the URLs removed within the group of `k`. -/
def pass1Proj (k : List Char) : List DedupItem → Option DedupItem → (Option DedupItem × List (List Char))
  | [], cur => (cur, [])
  | it :: rest, cur =>
    if github_file_key it.2.url = some k then
      match cur with
      | none => pass1Proj k rest (some it)
      | some c =>
        if prioOf it < prioOf c then
          ((pass1Proj k rest (some it)).1, c.2.url :: (pass1Proj k rest (some it)).2)
        else
          ((pass1Proj k rest (some c)).1, it.2.url :: (pass1Proj k rest (some c)).2)
    else pass1Proj k rest cur

/-! ## Theorems -/

/-! ### Shared facts about the scorer -/

theorem ratAdd_eq (a b : ℚ) : ratAdd a b = a + b := (Rat.add_def' a b).symm

theorem trust_tier_points_nonneg (d : List Char) (ts : List ((List Char) × CatCfg)) :
    0 ≤ trust_tier_points d ts := by
  induction ts with
  | nil => simp [trust_tier_points]
  | cons p rest ih =>
    obtain ⟨n, cfg⟩ := p
    simp only [trust_tier_points]
    split
    · unfold priority_points
      split <;> try split
      all_goals norm_num
    · exact ih

theorem ite_zero_nonneg (c : Prop) [Decidable c] (a : ℚ) (h : 0 ≤ a) :
    0 ≤ if c then a else 0 := by
  split
  · exact h
  · exact le_refl 0

theorem trust_tier_points_append_first (d : List Char) (ts1 ts2 : List ((List Char) × CatCfg))
    (n : List Char) (cfg : CatCfg) (h : d ∈ cfg.domains) :
    trust_tier_points d (ts1 ++ (n, cfg) :: ts2) = trust_tier_points d (ts1 ++ [(n, cfg)]) := by
  induction ts1 with
  | nil => simp [trust_tier_points, h]
  | cons p rest ih =>
    obtain ⟨n', cfg'⟩ := p
    simp only [List.cons_append, trust_tier_points]
    split
    · rfl
    · exact ih

/-- C2 — for every candidate record, subject identifier, subject name,
authoritative reference set and trust configuration, the computed relevance
score lies in [0, 1], and so does the score after the +0.20 scoped-query
boost that the orchestrator applies after base scoring. -/
theorem c2_score_bounds (result : SResult) (tid tname : List Char)
    (mitre : List (List Char)) (ts : List ((List Char) × CatCfg)) (b : Bool) :
    0 ≤ compute_relevance_score result tid tname mitre ts
    ∧ compute_relevance_score result tid tname mitre ts ≤ 1
    ∧ 0 ≤ apply_scoped_boost b (compute_relevance_score result tid tname mitre ts)
    ∧ apply_scoped_boost b (compute_relevance_score result tid tname mitre ts) ≤ 1 := by
  have h0 : 0 ≤ compute_relevance_score result tid tname mitre ts := by
    simp only [compute_relevance_score, ratAdd_eq]
    refine le_min ?_ (by norm_num)
    refine add_nonneg (add_nonneg (add_nonneg (add_nonneg (add_nonneg (add_nonneg ?_ ?_) ?_) ?_) ?_) ?_) ?_
    all_goals apply ite_zero_nonneg
    all_goals first
      | exact trust_tier_points_nonneg _ _
      | norm_num
  have h1 : compute_relevance_score result tid tname mitre ts ≤ 1 := by
    simp only [compute_relevance_score]
    exact min_le_right _ _
  have h5 : (mkRat 1 5 : ℚ) = 1/5 := by norm_num [Rat.mkRat_eq_div]
  refine ⟨h0, h1, ?_, ?_⟩
  · unfold apply_scoped_boost
    split
    · rw [ratAdd_eq]
      exact le_min (by rw [h5]; linarith) (by norm_num)
    · exact h0
  · unfold apply_scoped_boost
    split
    · exact min_le_right _ _
    · exact h1

/-- C1 counterexample — with subject name `""` the derived short name is
empty; the claim's reading ("+0.25 if the title contains the shortName",
"+0.10 if the description contains the shortName", substring semantics)
then awards both bonuses on every candidate, because the empty string is a
substring of everything, yielding 0.30 + 0.25 + 0.10 = 0.65 here, while
`compute_relevance_score` awards only the 0.30 title/id signal: its two
short-name signals are guarded by `if short_name and …`. -/
theorem c1_counterexample :
    claimed_relevance_score ⟨("t1003").toList, [], [], [], [], none, none, false⟩
        (("T1003").toList) [] [] [] = mkRat 13 20
    ∧ compute_relevance_score ⟨("t1003").toList, [], [], [], [], none, none, false⟩
        (("T1003").toList) [] [] [] = mkRat 3 10
    ∧ ¬((mkRat 13 20 : ℚ) = mkRat 3 10) := by
  refine ⟨by decide, by decide, by norm_num⟩

/-- C1 (amended) — the Relevance Scorer's score equals the sum of the
points of exactly the matched signals, capped at 1.0, and is independent of
the order in which the signals are summed (any permutation of the signal
list yields the same score); the two short-name signals match only when the
derived shortName is nonempty, and the two trust-tier bonuses are mutually
exclusive (the first matching category only). -/
theorem c1_additive_order_independent (result : SResult) (tid tname : List Char)
    (mitre : List (List Char)) (ts : List ((List Char) × CatCfg)) (l : List ℚ)
    (h : l.Perm (signal_points result tid tname mitre ts)) :
    compute_relevance_score result tid tname mitre ts = min l.sum 1 := by
  rw [h.sum_eq]
  simp only [compute_relevance_score, signal_points, ratAdd_eq, List.sum_cons, List.sum_nil]
  congr 1
  ring

/-- Witness for C1 (amended): a concrete record scored against a reversed
signal list. -/
theorem c1_additive_order_independent_witness :
    compute_relevance_score ⟨("t1003").toList, [], [], [], [], none, none, false⟩
        (("T1003").toList) (("Dump").toList) [] []
      = min (([0, 0, 0, 0, 0, 0, mkRat 3 10] : List ℚ).sum) 1 :=
  c1_additive_order_independent _ _ _ _ _ _ (by decide)

/-- C10 — the scorer applies at most one trust-tier bonus: the trust loop's
value is decided by the first configured category (in iteration order)
whose domain list contains the candidate's domain, and once some category
contains the domain, every later category is irrelevant to the score — in
particular a domain listed in both a high- and a medium-priority category
never receives both bonuses. -/
theorem c10_first_matching_category_only :
    (∀ (result : SResult) (tid tname : List Char) (mitre : List (List Char))
        (ts1 : List ((List Char) × CatCfg)) (n : List Char) (cfg : CatCfg)
        (ts2 : List ((List Char) × CatCfg)),
        lowerStr result.domain ∈ cfg.domains →
        compute_relevance_score result tid tname mitre (ts1 ++ (n, cfg) :: ts2)
          = compute_relevance_score result tid tname mitre (ts1 ++ [(n, cfg)]))
    ∧ (∀ (d : List Char) (ts : List ((List Char) × CatCfg)),
        trust_tier_points d ts =
          match ts.find? (fun p => decide (d ∈ p.2.domains)) with
          | some p => priority_points p.2.priority
          | none => 0) := by
  constructor
  · intro result tid tname mitre ts1 n cfg ts2 h
    simp only [compute_relevance_score]
    rw [trust_tier_points_append_first _ _ _ _ _ h]
    have e1 : ((ts1 ++ (n, cfg) :: ts2) ≠ ([] : List ((List Char) × CatCfg))) = True := by
      simp
    have e2 : ((ts1 ++ [(n, cfg)]) ≠ ([] : List ((List Char) × CatCfg))) = True := by
      simp
    simp only [e1, e2]
  · intro d ts
    induction ts with
    | nil => simp [trust_tier_points]
    | cons p rest ih =>
      obtain ⟨n', cfg'⟩ := p
      simp only [trust_tier_points, List.find?]
      by_cases h : d ∈ cfg'.domains
      · simp [h]
      · simp [h, ih]

/-- Witness for C10: a domain listed in a high-priority category followed
by a medium-priority category listing it again scores as if the later
category were absent. -/
theorem c10_first_matching_category_only_witness :
    compute_relevance_score ⟨[], [], [], [], ("x.com").toList, none, none, false⟩
        (("T1003").toList) (("Dump").toList) []
        ([] ++ (("c1").toList, ⟨[("x.com").toList], ("high").toList⟩)
          :: [(("c2").toList, ⟨[("x.com").toList], ("medium").toList⟩)])
      = compute_relevance_score ⟨[], [], [], [], ("x.com").toList, none, none, false⟩
          (("T1003").toList) (("Dump").toList) []
          ([] ++ [(("c1").toList, ⟨[("x.com").toList], ("high").toList⟩)]) :=
  c10_first_matching_category_only.1 _ _ _ _ _ _ _ _ (by decide)

/-- C6 — the Search Executor never propagates a provider failure: if the
`ddgs` provider errors on a query, `_search_via_ddgs` falls back to the
HTML-scraping path on the same query, and if the HTML fetch also fails the
result is the empty list.  (In the embedding both mechanisms are `Except`
values and `search_via_ddgs` is a total function into `List RawResult`, so
no input or provider failure can raise to the caller.) -/
theorem c6_executor_fallback
    (ddgsText : List Char → ℕ → Except (List Char) (List DdgsRawItem))
    (htmlGet : List Char → Except (List Char) (List Char))
    (parseHtml : List Char → ℕ → List RawResult)
    (query : List Char) (n : ℕ) (e e' : List Char) :
    (ddgsText query n = Except.error e →
      search_via_ddgs ddgsText htmlGet parseHtml query n
        = search_via_html htmlGet parseHtml query n)
    ∧ (ddgsText query n = Except.error e → htmlGet query = Except.error e' →
      search_via_ddgs ddgsText htmlGet parseHtml query n = []) := by
  constructor
  · intro h
    simp [search_via_ddgs, h]
  · intro h h'
    simp [search_via_ddgs, search_via_html, h, h']

/-- Witness for C6: with a failing provider and a failing HTML fetch the
executor returns the empty list. -/
theorem c6_executor_fallback_witness :
    search_via_ddgs (fun _ _ => Except.error (("boom").toList))
        (fun _ => Except.error (("net").toList)) (fun _ _ => [])
        (("q").toList) 5 = [] :=
  (c6_executor_fallback (fun _ _ => Except.error (("boom").toList))
      (fun _ => Except.error (("net").toList)) (fun _ _ => [])
      (("q").toList) 5 (("boom").toList) (("net").toList)).2 rfl rfl

/-- C8 — cache round trip (`DuckDuckGoScraper.search`): when the first
execution of a query misses the cache and the provider path returns a
non-empty result set, that set is stored; re-executing the same query
within the TTL (1 day) returns the stored set from the cache, with zero
executions of the underlying search path — hence no rate-limiter wait and
no network call. -/
theorem c8_cache_round_trip (keyFn : List Char → List Char)
    (doSearch : List Char → ℕ → List RawResult)
    (cache0 : List ((List Char) × CacheEntry)) (t0 t1 : ℕ)
    (query : List Char) (n : ℕ)
    (hmiss : get_cached cache0 (keyFn query) t0 1 = none)
    (hnonempty : doSearch query n ≠ [])
    (hfresh : t1 - t0 ≤ 86400) :
    (scraper_search true keyFn doSearch cache0 t0 query n).1 = doSearch query n
    ∧ (scraper_search true keyFn doSearch cache0 t0 query n).2.2 = 1
    ∧ scraper_search true keyFn doSearch
        ((scraper_search true keyFn doSearch cache0 t0 query n).2.1) t1 query n
      = ((scraper_search true keyFn doSearch cache0 t0 query n).1,
         (scraper_search true keyFn doSearch cache0 t0 query n).2.1, 0) := by
  have hrun : scraper_search true keyFn doSearch cache0 t0 query n
      = (doSearch query n, set_cached cache0 (keyFn query) (doSearch query n) t0, 1) := by
    simp [scraper_search, hmiss, hnonempty]
  refine ⟨by rw [hrun], by rw [hrun], ?_⟩
  rw [hrun]
  have hhit : get_cached (set_cached cache0 (keyFn query) (doSearch query n) t0)
      (keyFn query) t1 1 = some (doSearch query n) := by
    simp [get_cached, set_cached, List.find?, hfresh]
  simp [scraper_search, hhit]

/-- Witness for C8: a concrete first-miss-then-hit run. -/
theorem c8_cache_round_trip_witness :
    (scraper_search true (fun q => q)
        (fun _ _ => [⟨("t").toList, ("https://x.com/a/b").toList, [], [], ("x.com").toList⟩])
        [] 0 (("q").toList) 5).1
      = (fun (_ : List Char) (_ : ℕ) =>
          [(⟨("t").toList, ("https://x.com/a/b").toList, [], [], ("x.com").toList⟩ : RawResult)])
          (("q").toList) 5
    ∧ (scraper_search true (fun q => q)
        (fun _ _ => [⟨("t").toList, ("https://x.com/a/b").toList, [], [], ("x.com").toList⟩])
        [] 0 (("q").toList) 5).2.2 = 1
    ∧ scraper_search true (fun q => q)
        (fun _ _ => [⟨("t").toList, ("https://x.com/a/b").toList, [], [], ("x.com").toList⟩])
        ((scraper_search true (fun q => q)
          (fun _ _ => [⟨("t").toList, ("https://x.com/a/b").toList, [], [], ("x.com").toList⟩])
          [] 0 (("q").toList) 5).2.1) 3600 (("q").toList) 5
      = ((scraper_search true (fun q => q)
            (fun _ _ => [⟨("t").toList, ("https://x.com/a/b").toList, [], [], ("x.com").toList⟩])
            [] 0 (("q").toList) 5).1,
         (scraper_search true (fun q => q)
            (fun _ _ => [⟨("t").toList, ("https://x.com/a/b").toList, [], [], ("x.com").toList⟩])
            [] 0 (("q").toList) 5).2.1, 0) :=
  c8_cache_round_trip (fun q => q)
    (fun _ _ => [⟨("t").toList, ("https://x.com/a/b").toList, [], [], ("x.com").toList⟩])
    [] 0 3600 (("q").toList) 5 (by decide) (by decide) (by decide)

/-! ### Sorting facts for the threshold filter (C9) -/

theorem insertDesc_perm (r : SResult) (l : List SResult) :
    (insertDesc r l).Perm (r :: l) := by
  induction l with
  | nil => simp [insertDesc]
  | cons x xs ih =>
    simp only [insertDesc]
    split
    · exact List.Perm.refl _
    · exact (ih.cons x).trans (List.Perm.swap r x xs)

theorem sortScoreDesc_perm (l : List SResult) : (sortScoreDesc l).Perm l := by
  induction l with
  | nil => simp [sortScoreDesc]
  | cons x xs ih =>
    simp only [sortScoreDesc, List.foldr_cons]
    exact (insertDesc_perm x _).trans (ih.cons x)

/-- The scoring step of the orchestrator's score-boost-sort-filter block:
`r['relevance_score'] = compute_relevance_score(...)`, then the scoped
boost. -/
def scored_one (technique_id technique_name : List Char)
    (mitre_ref_domains : List (List Char))
    (trusted_sources : List ((List Char) × CatCfg)) (r : SResult) : SResult :=
  withScore r (apply_scoped_boost r.scoped_query
    (compute_relevance_score r technique_id technique_name mitre_ref_domains trusted_sources))

theorem score_sort_filter_eq (search_results : List ((List Char) × List SResult))
    (tid tname : List Char) (mitre : List (List Char))
    (ts : List ((List Char) × CatCfg)) (ms : ℚ) :
    score_sort_filter search_results tid tname mitre ts ms
      = (search_results.map (fun p =>
          (p.1, (sortScoreDesc (p.2.map (scored_one tid tname mitre ts))).filter
                  (fun r => decide (ms ≤ r.relevance_score.getD 0)))),
         totalLen search_results
           - totalLen (search_results.map (fun p =>
              (p.1, (sortScoreDesc (p.2.map (scored_one tid tname mitre ts))).filter
                      (fun r => decide (ms ≤ r.relevance_score.getD 0)))))) := by
  simp only [score_sort_filter, scored_one, List.map_map]
  rfl

/-- C9 — threshold filtering: in the orchestrator's final sets every
retained candidate's score is at least `min_score`; every scored candidate
at or above `min_score` is retained in its category's final set (those
below are exactly the ones excluded); and the reported excluded count is
the pre-filter total minus the post-filter total (which the last conjunct
shows is the actual number of removed candidates, the final sets never
being larger than the scored ones). -/
theorem c9_threshold_filter (res : List ((List Char) × List SResult))
    (tid tname : List Char) (mitre : List (List Char))
    (ts : List ((List Char) × CatCfg)) (ms : ℚ) :
    (∀ p ∈ (score_sort_filter res tid tname mitre ts ms).1, ∀ r ∈ p.2,
        ms ≤ r.relevance_score.getD 0)
    ∧ (∀ cname lst, (cname, lst) ∈ res → ∀ r ∈ lst,
        ms ≤ (scored_one tid tname mitre ts r).relevance_score.getD 0 →
        ∃ lst', (cname, lst') ∈ (score_sort_filter res tid tname mitre ts ms).1
          ∧ scored_one tid tname mitre ts r ∈ lst')
    ∧ (score_sort_filter res tid tname mitre ts ms).2
        = totalLen res - totalLen (score_sort_filter res tid tname mitre ts ms).1
    ∧ totalLen (score_sort_filter res tid tname mitre ts ms).1 ≤ totalLen res := by
  rw [score_sort_filter_eq]
  refine ⟨?_, ?_, rfl, ?_⟩
  · intro p hp r hr
    obtain ⟨q, _, rfl⟩ := List.mem_map.mp hp
    have := (List.mem_filter.mp hr).2
    exact of_decide_eq_true this
  · intro cname lst hmem r hr hscore
    refine ⟨(sortScoreDesc (lst.map (scored_one tid tname mitre ts))).filter
      (fun r => decide (ms ≤ r.relevance_score.getD 0)), ?_, ?_⟩
    · exact List.mem_map.mpr ⟨(cname, lst), hmem, rfl⟩
    · refine List.mem_filter.mpr ⟨?_, decide_eq_true hscore⟩
      exact ((sortScoreDesc_perm _).mem_iff).mpr (List.mem_map.mpr ⟨r, hr, rfl⟩)
  · induction res with
    | nil => simp [totalLen]
    | cons p rest ih =>
      simp only [List.map_cons, totalLen, List.sum_cons] at *
      refine Nat.add_le_add ?_ ih
      exact (List.length_filter_le _ _).trans
        (((sortScoreDesc_perm _).length_eq).le.trans (by simp))

/-- Witness for C9: the spec's own threshold example — with `minScore=0.5`
a candidate scoring 0.45 (base 0.25 title-name signal + 0.20 scoped boost)
is excluded, and the excluded count is the pre/post difference 1; a second
candidate scoring 0.55 is retained. -/
theorem c9_threshold_filter_witness :
    ∃ lst', (("c").toList, lst')
        ∈ (score_sort_filter
            [(("c").toList,
              [⟨("Dump").toList, ("u1").toList, [], [], [], none, none, true⟩,
               ⟨("T1003 Dump").toList, ("u2").toList, [], [], [], none, none, false⟩])]
            (("T1003").toList) (("Dump").toList) [] [] (mkRat 1 2)).1
      ∧ scored_one (("T1003").toList) (("Dump").toList) [] []
          ⟨("T1003 Dump").toList, ("u2").toList, [], [], [], none, none, false⟩ ∈ lst' :=
  (c9_threshold_filter
      [(("c").toList,
        [⟨("Dump").toList, ("u1").toList, [], [], [], none, none, true⟩,
         ⟨("T1003 Dump").toList, ("u2").toList, [], [], [], none, none, false⟩])]
      (("T1003").toList) (("Dump").toList) [] [] (mkRat 1 2)).2.1
    (("c").toList)
    [⟨("Dump").toList, ("u1").toList, [], [], [], none, none, true⟩,
     ⟨("T1003 Dump").toList, ("u2").toList, [], [], [], none, none, false⟩]
    (by decide)
    ⟨("T1003 Dump").toList, ("u2").toList, [], [], [], none, none, false⟩
    (by decide) (by decide)

/-! ### Orchestrator membership facts (C3, C5) -/

theorem dedupFilterCat_mem (g : List (List Char)) :
    ∀ (l : List SResult) (s : List (List Char)) (r : SResult),
      r ∈ (dedupFilterCat g l s).1 → r ∈ l := by
  intro l
  induction l with
  | nil => intro s r h; simp [dedupFilterCat] at h
  | cons x xs ih =>
    intro s r h
    simp only [dedupFilterCat] at h
    split at h
    · exact List.mem_cons_of_mem _ (ih _ _ h)
    · split at h
      · exact List.mem_cons_of_mem _ (ih _ _ h)
      · rcases List.mem_cons.mp h with h' | h'
        · exact h' ▸ List.mem_cons_self _ _
        · exact List.mem_cons_of_mem _ (ih _ _ h')

theorem catTier1Results_not_scoped (srch : List Char → ℕ → List RawResult)
    (sn tid extra : List Char) (doms : List (List Char)) (r : SResult)
    (h : r ∈ catTier1Results srch sn tid extra doms) : r.scoped_query = false := by
  simp only [catTier1Results, List.mem_flatten, List.mem_map] at h
  obtain ⟨l, ⟨d, _, rfl⟩, hr⟩ := h
  obtain ⟨raw, _, rfl⟩ := List.mem_map.mp hr
  rfl

theorem catTier2Results_tier2 (srch : List Char → ℕ → List RawResult)
    (queries : List (List Char)) (c2 : List (List Char)) (mpc : ℕ) (r : SResult)
    (h : r ∈ catTier2Results srch queries c2 mpc) :
    r.search_tier = some (("tier2").toList) := by
  simp only [catTier2Results] at h
  split at h
  · simp only [List.mem_flatten, List.mem_map] at h
    obtain ⟨l, ⟨q, _, rfl⟩, hr⟩ := h
    obtain ⟨raw, _, rfl⟩ := List.mem_map.mp hr
    rfl
  · simp only [List.mem_flatten, List.mem_map] at h
    obtain ⟨l, ⟨batch, _, rfl⟩, hr⟩ := h
    simp only [List.mem_flatten, List.mem_map] at hr
    obtain ⟨l', ⟨q, _, rfl⟩, hr'⟩ := hr
    split at hr'
    · obtain ⟨raw, _, rfl⟩ := List.mem_map.mp hr'
      rfl
    · obtain ⟨raw, _, rfl⟩ := List.mem_map.mp hr'
      rfl

theorem stablePartTier1_mem (rs : List SResult) (r : SResult)
    (h : r ∈ stablePartTier1 rs) : r ∈ rs := by
  rcases List.mem_append.mp h with h' | h'
  · exact List.mem_of_mem_filter h'
  · exact List.mem_of_mem_filter h'

theorem stsGo_scoped_tier2 (srch : List Char → ℕ → List RawResult)
    (tid tname sn extra : List Char) (mrd t1set : List (List Char)) (mpc : ℕ) :
    ∀ (cats : List ((List Char) × CatCfg)) (gseen : List (List Char))
      (p : (List Char) × List SResult) (r : SResult),
      p ∈ stsGo srch tid tname sn extra mrd t1set mpc cats gseen →
      r ∈ p.2 → r.scoped_query = true → r.search_tier = some (("tier2").toList) := by
  intro cats
  induction cats with
  | nil => intro gseen p r h; simp [stsGo] at h
  | cons c rest ih =>
    obtain ⟨cname, cfg⟩ := c
    intro gseen p r hp hr hsq
    simp only [stsGo, List.mem_cons] at hp
    rcases hp with hp | hp
    · subst hp
      have h1 : r ∈ (dedupFilterCat gseen _ []).1 :=
        (List.take_sublist _ _).subset hr
      have h2 := dedupFilterCat_mem _ _ _ _ h1
      have h3 := stablePartTier1_mem _ _ h2
      rcases List.mem_append.mp h3 with h4 | h4
      · have := catTier1Results_not_scoped _ _ _ _ _ _ h4
        rw [this] at hsq
        exact absurd hsq (by simp)
      · exact catTier2Results_tier2 _ _ _ _ _ h4
    · exact ih _ _ _ hp hr hsq

/-- C3 counterexample — a tier-1 query is an explicit single-domain site
filter (`"Dump" site:x.com` contains `site:`), yet its result is emitted
with `scopedQuery` unset (`false`), and the scoring stage therefore leaves
its score at the unboosted base value (domain trust 0.15 here, not 0.35):
the orchestrator marks `_scoped_query` only in the tier-2 batched loop. -/
theorem c3_counterexample :
    strContains (("\"Dump\" site:x.com").toList) (("site:").toList) = true
    ∧ search_technique_sources
        (fun q _ => if q = (("\"Dump\" site:x.com").toList)
          then [⟨("R").toList, ("https://x.com/a/b").toList, ("d").toList,
                 ("x.com").toList, ("x.com").toList⟩] else [])
        (("T1003").toList) (("Dump").toList)
        [(("github").toList, ⟨[("x.com").toList], ("high").toList⟩)] 10 [] [] [("x.com").toList]
      = [(("github").toList,
          [⟨("R").toList, ("https://x.com/a/b").toList, ("d").toList,
            ("x.com").toList, ("x.com").toList, none, some (("tier1").toList), false⟩])]
    ∧ score_sort_filter
        [(("github").toList,
          [⟨("R").toList, ("https://x.com/a/b").toList, ("d").toList,
            ("x.com").toList, ("x.com").toList, none, some (("tier1").toList), false⟩])]
        (("T1003").toList) (("Dump").toList) []
        [(("github").toList, ⟨[("x.com").toList], ("high").toList⟩)] 0
      = ([(("github").toList,
          [⟨("R").toList, ("https://x.com/a/b").toList, ("d").toList,
            ("x.com").toList, ("x.com").toList, some (mkRat 3 20),
            some (("tier1").toList), false⟩])], 0) := by
  refine ⟨by decide, by decide, by decide⟩

/-- C3 (amended) — only results produced by the tier-2 batched loop's
direct execution of a query that itself contains a `site:` restriction
carry `scopedQuery = true` (every result in the orchestrator's output with
the flag set is a tier-2 result; tier-1 site-scoped queries, the batched
site-filtered searches and the no-tier-2-domain fallback never set it),
and the scoring stage adds +0.20 capped at 1.0 to exactly the flagged
results, leaving unflagged results at their base score. -/
theorem c3_scoped_boost_amended :
    (∀ (srch : List Char → ℕ → List RawResult) (tid tname : List Char)
        (cats : List ((List Char) × CatCfg)) (mpc : ℕ) (extra : List Char)
        (mitre t1d : List (List Char)) (p : (List Char) × List SResult) (r : SResult),
        p ∈ search_technique_sources srch tid tname cats mpc extra mitre t1d →
        r ∈ p.2 → r.scoped_query = true → r.search_tier = some (("tier2").toList))
    ∧ (∀ (tid tname : List Char) (mitre : List (List Char))
        (ts : List ((List Char) × CatCfg)) (r : SResult),
        (r.scoped_query = true →
          (scored_one tid tname mitre ts r).relevance_score
            = some (min (ratAdd (compute_relevance_score r tid tname mitre ts) (mkRat 1 5)) 1))
        ∧ (r.scoped_query = false →
          (scored_one tid tname mitre ts r).relevance_score
            = some (compute_relevance_score r tid tname mitre ts))) := by
  constructor
  · intro srch tid tname cats mpc extra mitre t1d p r hp hr hsq
    exact stsGo_scoped_tier2 srch tid tname _ _ _ t1d mpc cats [] p r hp hr hsq
  · intro tid tname mitre ts r
    constructor
    · intro h
      simp [scored_one, withScore, apply_scoped_boost, h]
    · intro h
      simp [scored_one, withScore, apply_scoped_boost, h]

/-- Witness for C3 (amended): a `sigma_rules` run whose self-scoped query
produces a result that is flagged and tier-2 tagged. -/
theorem c3_scoped_boost_amended_witness :
    (⟨("R").toList, ("https://y.com/a/b").toList, ("d").toList,
      ("y.com").toList, ("y.com").toList, none, some (("tier2").toList), true⟩ : SResult).search_tier
      = some (("tier2").toList) :=
  c3_scoped_boost_amended.1
    (fun q _ => if q = (("site:github.com/SigmaHQ/sigma \"T1003\"").toList)
      then [⟨("R").toList, ("https://y.com/a/b").toList, ("d").toList,
             ("y.com").toList, ("y.com").toList⟩] else [])
    (("T1003").toList) (("Dump").toList)
    [(("sigma_rules").toList, ⟨[("y.com").toList], ("high").toList⟩)] 10 [] [] []
    ((("sigma_rules").toList,
      [⟨("R").toList, ("https://y.com/a/b").toList, ("d").toList,
        ("y.com").toList, ("y.com").toList, none, some (("tier2").toList), true⟩]))
    (⟨("R").toList, ("https://y.com/a/b").toList, ("d").toList,
      ("y.com").toList, ("y.com").toList, none, some (("tier2").toList), true⟩)
    (by
      have he : search_technique_sources
          (fun q _ => if q = (("site:github.com/SigmaHQ/sigma \"T1003\"").toList)
            then [⟨("R").toList, ("https://y.com/a/b").toList, ("d").toList,
                   ("y.com").toList, ("y.com").toList⟩] else [])
          (("T1003").toList) (("Dump").toList)
          [(("sigma_rules").toList, ⟨[("y.com").toList], ("high").toList⟩)] 10 [] [] []
          = [((("sigma_rules").toList,
              [⟨("R").toList, ("https://y.com/a/b").toList, ("d").toList,
                ("y.com").toList, ("y.com").toList, none, some (("tier2").toList), true⟩]))] := by
        decide
      rw [he]
      exact List.mem_singleton_self _)
    (List.mem_singleton_self _) rfl

/-! ### Pass-1 characterization lemmas (C7) -/

theorem lookupA_cons_self (k : List Char) (e : DedupItem) (m : List ((List Char) × DedupItem)) :
    lookupA ((k, e) :: m) k = some e := by
  simp [lookupA, List.find?]

theorem lookupA_cons_ne (k k' : List Char) (e : DedupItem) (m : List ((List Char) × DedupItem))
    (h : ¬(k' = k)) : lookupA ((k', e) :: m) k = lookupA m k := by
  simp [lookupA, List.find?, h]

theorem lookupA_mem {m : List ((List Char) × DedupItem)} {k : List Char} {e : DedupItem}
    (h : lookupA m k = some e) : (k, e) ∈ m := by
  unfold lookupA at h
  rcases hf : List.find? (fun p => decide (p.1 = k)) m with _ | p
  · rw [hf] at h
    simp at h
  · rw [hf] at h
    simp only [Option.map_some'] at h
    have hm := List.mem_of_find?_eq_some hf
    have hp := List.find?_some hf
    simp only [decide_eq_true_eq] at hp
    obtain ⟨p1, p2⟩ := p
    cases h
    subst hp
    exact hm

theorem pass1_cons_nokey (cat : List Char) (r : SResult) (rest : List DedupItem)
    (m : List ((List Char) × DedupItem)) (removed : List (List Char))
    (h : github_file_key r.url = none) :
    pass1 ((cat, r) :: rest) m removed = pass1 rest m removed := by
  simp [pass1, h]

theorem pass1_cons_miss (cat : List Char) (r : SResult) (rest : List DedupItem)
    (m : List ((List Char) × DedupItem)) (removed : List (List Char)) (k' : List Char)
    (h : github_file_key r.url = some k') (hl : lookupA m k' = none) :
    pass1 ((cat, r) :: rest) m removed = pass1 rest ((k', (cat, r)) :: m) removed := by
  simp [pass1, h, hl]

theorem pass1_cons_win (cat : List Char) (r : SResult) (rest : List DedupItem)
    (m : List ((List Char) × DedupItem)) (removed : List (List Char)) (k' : List Char)
    (er : DedupItem) (h : github_file_key r.url = some k') (hl : lookupA m k' = some er)
    (hw : github_org_priority (github_org r.url) < github_org_priority (github_org er.2.url)) :
    pass1 ((cat, r) :: rest) m removed
      = pass1 rest ((k', (cat, r)) :: m) (er.2.url :: removed) := by
  simp [pass1, h, hl, hw]

theorem pass1_cons_lose (cat : List Char) (r : SResult) (rest : List DedupItem)
    (m : List ((List Char) × DedupItem)) (removed : List (List Char)) (k' : List Char)
    (er : DedupItem) (h : github_file_key r.url = some k') (hl : lookupA m k' = some er)
    (hw : ¬(github_org_priority (github_org r.url) < github_org_priority (github_org er.2.url))) :
    pass1 ((cat, r) :: rest) m removed = pass1 rest m (r.url :: removed) := by
  simp [pass1, h, hl, hw]

theorem pass1Proj_cons_nonkey (k : List Char) (cat : List Char) (r : SResult)
    (rest : List DedupItem) (cur : Option DedupItem)
    (h : ¬(github_file_key r.url = some k)) :
    pass1Proj k ((cat, r) :: rest) cur = pass1Proj k rest cur := by
  simp [pass1Proj, h]

theorem pass1Proj_cons_key_none (k : List Char) (cat : List Char) (r : SResult)
    (rest : List DedupItem) (h : github_file_key r.url = some k) :
    pass1Proj k ((cat, r) :: rest) none = pass1Proj k rest (some (cat, r)) := by
  simp [pass1Proj, h]

theorem pass1Proj_cons_key_win (k : List Char) (cat : List Char) (r : SResult)
    (rest : List DedupItem) (c : DedupItem) (h : github_file_key r.url = some k)
    (hw : prioOf (cat, r) < prioOf c) :
    pass1Proj k ((cat, r) :: rest) (some c)
      = ((pass1Proj k rest (some (cat, r))).1, c.2.url :: (pass1Proj k rest (some (cat, r))).2) := by
  simp [pass1Proj, h, hw]

theorem pass1Proj_cons_key_lose (k : List Char) (cat : List Char) (r : SResult)
    (rest : List DedupItem) (c : DedupItem) (h : github_file_key r.url = some k)
    (hw : ¬(prioOf (cat, r) < prioOf c)) :
    pass1Proj k ((cat, r) :: rest) (some c)
      = ((pass1Proj k rest (some c)).1, r.url :: (pass1Proj k rest (some c)).2) := by
  simp [pass1Proj, h, hw]

theorem pass1_mem_proj (k u : List Char) :
    ∀ (items : List DedupItem) (m : List ((List Char) × DedupItem)) (removed : List (List Char)),
      (∀ p ∈ m, p.1 = k ∨ ¬(p.2.2.url = u)) →
      (∀ it ∈ items, github_file_key it.2.url = some k ∨ ¬(it.2.url = u)) →
      (u ∈ pass1 items m removed ↔ u ∈ (pass1Proj k items (lookupA m k)).2 ∨ u ∈ removed) := by
  intro items
  induction items with
  | nil =>
    intro m removed hm hits
    simp [pass1, pass1Proj]
  | cons it rest ih =>
    obtain ⟨cat, r⟩ := it
    intro m removed hm hits
    have hits' : ∀ x ∈ rest, github_file_key x.2.url = some k ∨ ¬(x.2.url = u) :=
      fun x hx => hits x (List.mem_cons_of_mem _ hx)
    rcases hk : github_file_key r.url with _ | k'
    · rw [pass1_cons_nokey _ _ _ _ _ hk,
        pass1Proj_cons_nonkey _ _ _ _ _ (by simp [hk])]
      exact ih m removed hm hits'
    · by_cases hkk : k' = k
      · subst hkk
        rcases hl : lookupA m k' with _ | er
        · rw [pass1_cons_miss _ _ _ _ _ _ hk hl, pass1Proj_cons_key_none _ _ _ _ hk]
          have hm' : ∀ p ∈ ((k', ((cat, r) : DedupItem)) :: m), p.1 = k' ∨ ¬(p.2.2.url = u) := by
            intro p hp
            rcases List.mem_cons.mp hp with h | h
            · subst h; exact Or.inl rfl
            · exact hm p h
          have h2 := ih ((k', ((cat, r) : DedupItem)) :: m) removed hm' hits'
          rw [lookupA_cons_self] at h2
          exact h2
        · by_cases hpr : prioOf (cat, r) < prioOf er
          · rw [pass1_cons_win _ _ _ _ _ _ _ hk hl hpr,
              pass1Proj_cons_key_win _ _ _ _ _ hk hpr]
            have hm' : ∀ p ∈ ((k', ((cat, r) : DedupItem)) :: m), p.1 = k' ∨ ¬(p.2.2.url = u) := by
              intro p hp
              rcases List.mem_cons.mp hp with h | h
              · subst h; exact Or.inl rfl
              · exact hm p h
            have h2 := ih ((k', ((cat, r) : DedupItem)) :: m) (er.2.url :: removed) hm' hits'
            rw [lookupA_cons_self] at h2
            rw [h2]
            simp only [List.mem_cons]
            tauto
          · rw [pass1_cons_lose _ _ _ _ _ _ _ hk hl hpr,
              pass1Proj_cons_key_lose _ _ _ _ _ hk hpr]
            have h2 := ih m (r.url :: removed) hm hits'
            rw [hl] at h2
            rw [h2]
            simp only [List.mem_cons]
            tauto
      · have hru : ¬(r.url = u) := by
          rcases hits ((cat, r) : DedupItem) (List.mem_cons_self _ _) with h | h
          · rw [hk] at h
            exact absurd (Option.some.inj h) hkk
          · exact h
        rw [pass1Proj_cons_nonkey _ _ _ _ _ (by rw [hk]; simp [hkk])]
        rcases hl : lookupA m k' with _ | er
        · rw [pass1_cons_miss _ _ _ _ _ _ hk hl]
          have hm' : ∀ p ∈ ((k', ((cat, r) : DedupItem)) :: m), p.1 = k ∨ ¬(p.2.2.url = u) := by
            intro p hp
            rcases List.mem_cons.mp hp with h | h
            · subst h; exact Or.inr hru
            · exact hm p h
          have h2 := ih ((k', ((cat, r) : DedupItem)) :: m) removed hm' hits'
          rw [lookupA_cons_ne _ _ _ _ hkk] at h2
          exact h2
        · have heru : ¬(er.2.url = u) := by
            rcases hm (k', er) (lookupA_mem hl) with h | h
            · exact absurd h hkk
            · exact h
          by_cases hpr : prioOf (cat, r) < prioOf er
          · rw [pass1_cons_win _ _ _ _ _ _ _ hk hl hpr]
            have hm' : ∀ p ∈ ((k', ((cat, r) : DedupItem)) :: m), p.1 = k ∨ ¬(p.2.2.url = u) := by
              intro p hp
              rcases List.mem_cons.mp hp with h | h
              · subst h; exact Or.inr hru
              · exact hm p h
            have h2 := ih ((k', ((cat, r) : DedupItem)) :: m) (er.2.url :: removed) hm' hits'
            rw [lookupA_cons_ne _ _ _ _ hkk] at h2
            rw [h2]
            simp only [List.mem_cons]
            constructor
            · rintro (h | h | h)
              · exact Or.inl h
              · exact absurd h.symm heru
              · exact Or.inr h
            · rintro (h | h)
              · exact Or.inl h
              · exact Or.inr (Or.inr h)
          · rw [pass1_cons_lose _ _ _ _ _ _ _ hk hl hpr]
            have h2 := ih m (r.url :: removed) hm hits'
            rw [h2]
            simp only [List.mem_cons]
            constructor
            · rintro (h | h | h)
              · exact Or.inl h
              · exact absurd h.symm hru
              · exact Or.inr h
            · rintro (h | h)
              · exact Or.inl h
              · exact Or.inr (Or.inr h)

theorem prioOf_le_base (it : DedupItem) : prioOf it ≤ PREFERRED_GITHUB_ORGS.length := by
  unfold prioOf github_org_priority
  rw [List.indexOf]
  exact List.findIdx_le_length _

theorem group_min_prio_cons (x : DedupItem) (g : List DedupItem) :
    group_min_prio (x :: g) = min (prioOf x) (group_min_prio g) := rfl

theorem group_min_prio_le_base (g : List DedupItem) :
    group_min_prio g ≤ PREFERRED_GITHUB_ORGS.length := by
  induction g with
  | nil => exact le_refl _
  | cons x t ih =>
    rw [group_min_prio_cons]
    exact le_trans (Nat.min_le_right _ _) ih

theorem group_min_prio_le (g : List DedupItem) (it : DedupItem) (h : it ∈ g) :
    group_min_prio g ≤ prioOf it := by
  induction g with
  | nil => cases h
  | cons x t ih =>
    rw [group_min_prio_cons]
    rcases List.mem_cons.mp h with h' | h'
    · subst h'; exact Nat.min_le_left _ _
    · exact le_trans (Nat.min_le_right _ _) (ih h')

theorem group_min_attained : ∀ (g : List DedupItem), g ≠ [] →
    ∃ w, w ∈ g ∧ prioOf w = group_min_prio g := by
  intro g
  induction g with
  | nil => intro h; exact absurd rfl h
  | cons x t ih =>
    intro _
    rcases t with _ | ⟨y, t'⟩
    · refine ⟨x, List.mem_cons_self _ _, ?_⟩
      rw [group_min_prio_cons]
      exact (Nat.min_eq_left (le_trans (prioOf_le_base x) (group_min_prio_le_base []))).symm
    · by_cases hle : prioOf x ≤ group_min_prio (y :: t')
      · refine ⟨x, List.mem_cons_self _ _, ?_⟩
        rw [group_min_prio_cons]
        exact (Nat.min_eq_left hle).symm
      · obtain ⟨w, hw, hwp⟩ := ih (by simp)
        refine ⟨w, List.mem_cons_of_mem _ hw, ?_⟩
        rw [group_min_prio_cons, hwp]
        omega

theorem group_winner_mem (g : List DedupItem) (h : g ≠ []) :
    ∃ w, group_winner g = some w ∧ w ∈ g ∧ prioOf w = group_min_prio g := by
  obtain ⟨w0, hw0, hwp0⟩ := group_min_attained g h
  have hs : (g.find? (fun it => decide (prioOf it = group_min_prio g))).isSome := by
    rw [List.find?_isSome]
    exact ⟨w0, hw0, by simp [hwp0]⟩
  obtain ⟨w, hw⟩ := Option.isSome_iff_exists.mp hs
  refine ⟨w, hw, List.mem_of_find?_eq_some hw, ?_⟩
  have := List.find?_some hw
  simpa using this

theorem group_winner_cons_skip (c : DedupItem) (t : List DedupItem)
    (h : group_min_prio t < prioOf c) :
    group_winner (c :: t) = group_winner t := by
  unfold group_winner
  rw [group_min_prio_cons, Nat.min_eq_right (le_of_lt h)]
  exact List.find?_cons_of_neg _ (by simp; omega)

theorem group_winner_middle (c x : DedupItem) (g : List DedupItem)
    (h : prioOf c ≤ prioOf x) :
    group_winner (c :: x :: g) = group_winner (c :: g) := by
  unfold group_winner
  have hm : group_min_prio (c :: x :: g) = group_min_prio (c :: g) := by
    rw [group_min_prio_cons, group_min_prio_cons, group_min_prio_cons]
    omega
  rw [hm]
  by_cases hc : prioOf c = group_min_prio (c :: g)
  · rw [List.find?_cons_of_pos _ (by simp [hc]), List.find?_cons_of_pos _ (by simp [hc])]
  · have hmc : group_min_prio (c :: g) ≤ prioOf c := by
      rw [group_min_prio_cons]
      exact Nat.min_le_left _ _
    rw [List.find?_cons_of_neg _ (by simp [hc])]
    rw [List.find?_cons_of_neg _ (by simp; omega)]
    rw [List.find?_cons_of_neg _ (by simp [hc])]

theorem pass1Proj_char (k u : List Char) :
    ∀ (items : List DedupItem) (c : DedupItem),
      ((c :: group_of items k).map (fun it => it.2.url)).Nodup →
      (u ∈ (pass1Proj k items (some c)).2 ↔
        ∃ it, it ∈ (c :: group_of items k) ∧ it.2.url = u
          ∧ ¬(group_winner (c :: group_of items k) = some it)) := by
  intro items
  induction items with
  | nil =>
    intro c _
    constructor
    · intro h
      simp [pass1Proj] at h
    · rintro ⟨it, hit, _, hw⟩
      have hitc : it = c := by simpa [group_of] using hit
      subst hitc
      exfalso
      apply hw
      unfold group_winner
      have hmin : group_min_prio (it :: group_of [] k) = prioOf it := by
        have : group_of ([] : List DedupItem) k = [] := rfl
        rw [this, group_min_prio_cons]
        exact Nat.min_eq_left (by have h := prioOf_le_base it; simpa [group_min_prio] using h)
      exact List.find?_cons_of_pos _ (by simp [hmin])
  | cons itm rest ih =>
    obtain ⟨cat, r⟩ := itm
    intro c hnd
    by_cases hk : github_file_key r.url = some k
    · have hgrp : group_of (((cat, r) : DedupItem) :: rest) k
          = ((cat, r) : DedupItem) :: group_of rest k := by
        simp [group_of, hk]
      rw [hgrp] at hnd ⊢
      by_cases hpr : prioOf (cat, r) < prioOf c
      · rw [pass1Proj_cons_key_win _ _ _ _ _ hk hpr]
        have hnd' : ((((cat, r) : DedupItem) :: group_of rest k).map (fun it => it.2.url)).Nodup := by
          simp only [List.map_cons] at hnd ⊢
          exact hnd.of_cons
        have hih := ih ((cat, r)) hnd'
        have hwskip : group_winner (c :: ((cat, r) : DedupItem) :: group_of rest k)
            = group_winner (((cat, r) : DedupItem) :: group_of rest k) :=
          group_winner_cons_skip _ _
            (lt_of_le_of_lt (group_min_prio_le _ _ (List.mem_cons_self _ _)) hpr)
        have hcurl : c.2.url ∉ ((((cat, r) : DedupItem) :: group_of rest k).map (fun it => it.2.url)) := by
          simp only [List.map_cons] at hnd
          exact (List.nodup_cons.mp hnd).1
        constructor
        · intro h
          rcases List.mem_cons.mp h with h | h
          · refine ⟨c, List.mem_cons_self _ _, h.symm, ?_⟩
            rw [hwskip]
            intro hw
            exact hcurl (List.mem_map.mpr ⟨c, List.mem_of_find?_eq_some hw, rfl⟩)
          · obtain ⟨it, hit, hurl, hwne⟩ := hih.mp h
            exact ⟨it, List.mem_cons_of_mem _ hit, hurl, by rw [hwskip]; exact hwne⟩
        · rintro ⟨it, hit, hurl, hwne⟩
          rcases List.mem_cons.mp hit with h | h
          · subst h
            exact List.mem_cons.mpr (Or.inl hurl.symm)
          · refine List.mem_cons_of_mem _ ?_
            refine hih.mpr ⟨it, h, hurl, ?_⟩
            rw [hwskip] at hwne
            exact hwne
      · rw [pass1Proj_cons_key_lose _ _ _ _ _ hk hpr]
        have hsub : (c :: group_of rest k).Sublist (c :: ((cat, r) : DedupItem) :: group_of rest k) :=
          List.Sublist.cons₂ _ (List.sublist_cons_self _ _)
        have hnd'' : ((c :: group_of rest k).map (fun it => it.2.url)).Nodup :=
          (hsub.map (fun it => it.2.url)).nodup hnd
        have hih := ih c hnd''
        have hwmid : group_winner (c :: ((cat, r) : DedupItem) :: group_of rest k)
            = group_winner (c :: group_of rest k) :=
          group_winner_middle _ _ _ (le_of_not_lt hpr)
        have hxurl : (((cat, r) : DedupItem)).2.url
            ∉ ((c :: group_of rest k).map (fun it => it.2.url)) := by
          simp only [List.map_cons] at hnd
          have h1 := (List.nodup_cons.mp hnd).1
          have h2 := (List.nodup_cons.mp (List.nodup_cons.mp hnd).2).1
          simp only [List.map_cons, List.mem_cons]
          rintro (h | h)
          · exact h1 (by rw [h]; exact List.mem_cons_self _ _)
          · exact h2 h
        constructor
        · intro h
          rcases List.mem_cons.mp h with h | h
          · refine ⟨(cat, r), List.mem_cons_of_mem _ (List.mem_cons_self _ _), h.symm, ?_⟩
            rw [hwmid]
            intro hw
            exact hxurl (List.mem_map.mpr ⟨(cat, r), List.mem_of_find?_eq_some hw, rfl⟩)
          · obtain ⟨it, hit, hurl, hwne⟩ := hih.mp h
            rcases List.mem_cons.mp hit with h' | h'
            · subst h'
              exact ⟨it, List.mem_cons_self _ _, hurl, by rw [hwmid]; exact hwne⟩
            · exact ⟨it, List.mem_cons_of_mem _ (List.mem_cons_of_mem _ h'), hurl,
                by rw [hwmid]; exact hwne⟩
        · rintro ⟨it, hit, hurl, hwne⟩
          rw [hwmid] at hwne
          rcases List.mem_cons.mp hit with h' | hit'
          · subst h'
            exact List.mem_cons_of_mem _ (hih.mpr ⟨it, List.mem_cons_self _ _, hurl, hwne⟩)
          · rcases List.mem_cons.mp hit' with h'' | h''
            · subst h''
              exact List.mem_cons.mpr (Or.inl hurl.symm)
            · exact List.mem_cons_of_mem _
                (hih.mpr ⟨it, List.mem_cons_of_mem _ h'', hurl, hwne⟩)
    · have hgrp : group_of (((cat, r) : DedupItem) :: rest) k = group_of rest k := by
        simp [group_of, hk]
      rw [hgrp] at hnd
      rw [pass1Proj_cons_nonkey _ _ _ _ _ hk, hgrp]
      exact ih c hnd

theorem pass1Proj_none_char (k u : List Char) :
    ∀ (items : List DedupItem),
      ((group_of items k).map (fun it => it.2.url)).Nodup →
      (u ∈ (pass1Proj k items none).2 ↔
        ∃ it, it ∈ group_of items k ∧ it.2.url = u
          ∧ ¬(group_winner (group_of items k) = some it)) := by
  intro items
  induction items with
  | nil =>
    intro _
    constructor
    · intro h
      simp [pass1Proj] at h
    · rintro ⟨it, hit, _, _⟩
      have : group_of ([] : List DedupItem) k = [] := rfl
      rw [this] at hit
      cases hit
  | cons itm rest ih =>
    obtain ⟨cat, r⟩ := itm
    intro hnd
    by_cases hk : github_file_key r.url = some k
    · have hgrp : group_of (((cat, r) : DedupItem) :: rest) k
          = ((cat, r) : DedupItem) :: group_of rest k := by
        simp [group_of, hk]
      rw [hgrp] at hnd ⊢
      rw [pass1Proj_cons_key_none _ _ _ _ hk]
      exact pass1Proj_char k u rest ((cat, r)) hnd
    · have hgrp : group_of (((cat, r) : DedupItem) :: rest) k = group_of rest k := by
        simp [group_of, hk]
      rw [hgrp] at hnd
      rw [pass1Proj_cons_nonkey _ _ _ _ _ hk, hgrp]
      exact ih hnd

/-- C7 counterexample — the same redcanaryco URL appearing in two
categories (legitimate before the cross-category pass, which is what
Pass 1 itself runs inside) makes Pass 1 remove *every* candidate of the
file-path group, including the redcanaryco one: when the duplicate is
compared against the map holder (same org, not strictly preferred) its
URL — which is also the holder's URL — is added to `removed_urls`, so the
claimed surviving candidate is filtered out of all categories. -/
theorem c7_counterexample :
    github_file_key (("https://github.com/redcanaryco/repo2/blob/main/atomics/T1003/T1003.yaml").toList)
      = some (("atomics/T1003/T1003.yaml").toList)
    ∧ github_file_key (("https://github.com/orgA/repo/blob/main/atomics/T1003/T1003.yaml").toList)
      = some (("atomics/T1003/T1003.yaml").toList)
    ∧ deduplicate_results
        [(("c1").toList,
          [⟨("t1").toList, ("https://github.com/redcanaryco/repo2/blob/main/atomics/T1003/T1003.yaml").toList,
            [], [], [], none, none, false⟩,
           ⟨("t2").toList, ("https://github.com/orgA/repo/blob/main/atomics/T1003/T1003.yaml").toList,
            [], [], [], none, none, false⟩]),
         (("c2").toList,
          [⟨("t3").toList, ("https://github.com/redcanaryco/repo2/blob/main/atomics/T1003/T1003.yaml").toList,
            [], [], [], none, none, false⟩])]
      = [(("c1").toList, []), (("c2").toList, [])] := by
  refine ⟨by decide, by decide, by decide⟩

/-- C7 (amended) — provided no two candidates of the pool share a URL
string, Pass 1 behaves as claimed: within every group of candidates whose
code-hosting URLs resolve to the same repository-relative file path,
exactly the first-seen candidate among those whose hosting organization
has the earliest position in the preference list survives Pass 1 (the
not-listed index is the list length, so "no candidate's organization
listed" degenerates to first seen), and all other candidates of the group
are removed. -/
theorem c7_pass1_fork_resolution (results : List ((List Char) × List SResult)) (k : List Char)
    (hnd : ((flattenResults results).map (fun it => it.2.url)).Nodup) :
    ∀ it ∈ group_of (flattenResults results) k,
      (¬(it.2.url ∈ pass1 (flattenResults results) [] [])
        ↔ group_winner (group_of (flattenResults results) k) = some it) := by
  intro it hit
  have hkit : github_file_key it.2.url = some k := by
    have := List.of_mem_filter hit
    simpa using this
  have hinj := List.inj_on_of_nodup_map hnd
  have hits : ∀ x ∈ flattenResults results,
      github_file_key x.2.url = some k ∨ ¬(x.2.url = it.2.url) := by
    intro x hx
    by_cases hxu : x.2.url = it.2.url
    · have hxit : x = it := hinj hx (List.mem_of_mem_filter hit) hxu
      subst hxit
      exact Or.inl hkit
    · exact Or.inr hxu
  have hmem := pass1_mem_proj k it.2.url (flattenResults results) [] []
    (by intro p hp; cases hp) hits
  have hndg : ((group_of (flattenResults results) k).map (fun x => x.2.url)).Nodup :=
    ((List.filter_sublist _).map _).nodup hnd
  have hchar := pass1Proj_none_char k it.2.url (flattenResults results) hndg
  have hlook : lookupA ([] : List ((List Char) × DedupItem)) k = none := rfl
  rw [hlook] at hmem
  have hinjg := List.inj_on_of_nodup_map hndg
  constructor
  · intro h
    by_contra hw
    apply h
    rw [hmem]
    refine Or.inl (hchar.mpr ⟨it, hit, rfl, hw⟩)
  · intro hw hmem'
    rw [hmem] at hmem'
    rcases hmem' with h | h
    · obtain ⟨x, hx, hxu, hxw⟩ := hchar.mp h
      have : x = it := hinjg hx hit hxu
      subst this
      exact hxw hw
    · cases h

/-- Witness for C7 (amended): the claim's own example with distinct URLs —
the `redcanaryco` candidate survives Pass 1. -/
theorem c7_pass1_fork_resolution_witness :
    ¬((("https://github.com/redcanaryco/repo2/blob/main/atomics/T1003/T1003.yaml").toList)
      ∈ pass1 (flattenResults
          [(("c1").toList,
            [⟨("t2").toList, ("https://github.com/orgA/repo/blob/main/atomics/T1003/T1003.yaml").toList,
              [], [], [], none, none, false⟩]),
           (("c2").toList,
            [⟨("t1").toList, ("https://github.com/redcanaryco/repo2/blob/main/atomics/T1003/T1003.yaml").toList,
              [], [], [], none, none, false⟩])]) [] []) :=
  (c7_pass1_fork_resolution
      [(("c1").toList,
        [⟨("t2").toList, ("https://github.com/orgA/repo/blob/main/atomics/T1003/T1003.yaml").toList,
          [], [], [], none, none, false⟩]),
       (("c2").toList,
        [⟨("t1").toList, ("https://github.com/redcanaryco/repo2/blob/main/atomics/T1003/T1003.yaml").toList,
          [], [], [], none, none, false⟩])]
      (("atomics/T1003/T1003.yaml").toList)
      (by decide)
      ((("c2").toList,
        ⟨("t1").toList, ("https://github.com/redcanaryco/repo2/blob/main/atomics/T1003/T1003.yaml").toList,
          [], [], [], none, none, false⟩))
      (by decide)).mpr (by decide)

/-! ### Dedup pass step lemmas (C4) -/

theorem pass2_cons_skip (cat : List Char) (r : SResult) (rest : List DedupItem)
    (am im : List ((List Char) × DedupItem)) (removed : List (List Char))
    (h : r.url ∈ removed) :
    pass2 ((cat, r) :: rest) am im removed = pass2 rest am im removed := by
  simp [pass2, h]

theorem pass2_cons_arx_miss (cat : List Char) (r : SResult) (rest : List DedupItem)
    (am im : List ((List Char) × DedupItem)) (removed : List (List Char)) (aid : List Char)
    (h0 : ¬(r.url ∈ removed)) (ha : arxiv_id r.url = some aid) (hl : lookupA am aid = none) :
    pass2 ((cat, r) :: rest) am im removed
      = pass2 rest ((aid, (cat, r)) :: am) im removed := by
  simp [pass2, h0, ha, hl]

theorem pass2_cons_arx_win (cat : List Char) (r : SResult) (rest : List DedupItem)
    (am im : List ((List Char) × DedupItem)) (removed : List (List Char)) (aid : List Char)
    (er : DedupItem) (h0 : ¬(r.url ∈ removed)) (ha : arxiv_id r.url = some aid)
    (hl : lookupA am aid = some er)
    (hw : er.2.relevance_score.getD 0 < r.relevance_score.getD 0) :
    pass2 ((cat, r) :: rest) am im removed
      = pass2 rest ((aid, (cat, r)) :: am) im (er.2.url :: removed) := by
  simp [pass2, h0, ha, hl, hw]

theorem pass2_cons_arx_lose (cat : List Char) (r : SResult) (rest : List DedupItem)
    (am im : List ((List Char) × DedupItem)) (removed : List (List Char)) (aid : List Char)
    (er : DedupItem) (h0 : ¬(r.url ∈ removed)) (ha : arxiv_id r.url = some aid)
    (hl : lookupA am aid = some er)
    (hw : ¬(er.2.relevance_score.getD 0 < r.relevance_score.getD 0)) :
    pass2 ((cat, r) :: rest) am im removed = pass2 rest am im (r.url :: removed) := by
  simp [pass2, h0, ha, hl, hw]

theorem pass2_cons_iee_miss (cat : List Char) (r : SResult) (rest : List DedupItem)
    (am im : List ((List Char) × DedupItem)) (removed : List (List Char)) (iid : List Char)
    (h0 : ¬(r.url ∈ removed)) (ha : arxiv_id r.url = none) (hi : ieee_id r.url = some iid)
    (hl : lookupA im iid = none) :
    pass2 ((cat, r) :: rest) am im removed
      = pass2 rest am ((iid, (cat, r)) :: im) removed := by
  simp [pass2, h0, ha, hi, hl]

theorem pass2_cons_iee_win (cat : List Char) (r : SResult) (rest : List DedupItem)
    (am im : List ((List Char) × DedupItem)) (removed : List (List Char)) (iid : List Char)
    (er : DedupItem) (h0 : ¬(r.url ∈ removed)) (ha : arxiv_id r.url = none)
    (hi : ieee_id r.url = some iid) (hl : lookupA im iid = some er)
    (hw : er.2.relevance_score.getD 0 < r.relevance_score.getD 0) :
    pass2 ((cat, r) :: rest) am im removed
      = pass2 rest am ((iid, (cat, r)) :: im) (er.2.url :: removed) := by
  simp [pass2, h0, ha, hi, hl, hw]

theorem pass2_cons_iee_lose (cat : List Char) (r : SResult) (rest : List DedupItem)
    (am im : List ((List Char) × DedupItem)) (removed : List (List Char)) (iid : List Char)
    (er : DedupItem) (h0 : ¬(r.url ∈ removed)) (ha : arxiv_id r.url = none)
    (hi : ieee_id r.url = some iid) (hl : lookupA im iid = some er)
    (hw : ¬(er.2.relevance_score.getD 0 < r.relevance_score.getD 0)) :
    pass2 ((cat, r) :: rest) am im removed = pass2 rest am im (r.url :: removed) := by
  simp [pass2, h0, ha, hi, hl, hw]

theorem pass2_cons_none (cat : List Char) (r : SResult) (rest : List DedupItem)
    (am im : List ((List Char) × DedupItem)) (removed : List (List Char))
    (h0 : ¬(r.url ∈ removed)) (ha : arxiv_id r.url = none) (hi : ieee_id r.url = none) :
    pass2 ((cat, r) :: rest) am im removed = pass2 rest am im removed := by
  simp [pass2, h0, ha, hi]

theorem pass3_cons_skip (cat : List Char) (r : SResult) (rest : List DedupItem)
    (seen : List ((List Char) × (List Char) × ℚ)) (removed : List (List Char))
    (h : r.url ∈ removed) :
    pass3 ((cat, r) :: rest) seen removed = pass3 rest seen removed := by
  simp [pass3, h]

theorem pass3_cons_short (cat : List Char) (r : SResult) (rest : List DedupItem)
    (seen : List ((List Char) × (List Char) × ℚ)) (removed : List (List Char))
    (h0 : ¬(r.url ∈ removed)) (h : (normalize_title r.title).length < 10) :
    pass3 ((cat, r) :: rest) seen removed = pass3 rest seen removed := by
  simp [pass3, h0, h]

theorem pass3_cons_hit (cat : List Char) (r : SResult) (rest : List DedupItem)
    (seen : List ((List Char) × (List Char) × ℚ)) (removed : List (List Char)) (u : List Char)
    (h0 : ¬(r.url ∈ removed)) (h : ¬((normalize_title r.title).length < 10))
    (hs : pass3Scan (normalize_title r.title) (r.relevance_score.getD 0) r.url seen = some u) :
    pass3 ((cat, r) :: rest) seen removed = pass3 rest seen (u :: removed) := by
  simp [pass3, h0, h, hs]

theorem pass3_cons_new (cat : List Char) (r : SResult) (rest : List DedupItem)
    (seen : List ((List Char) × (List Char) × ℚ)) (removed : List (List Char))
    (h0 : ¬(r.url ∈ removed)) (h : ¬((normalize_title r.title).length < 10))
    (hs : pass3Scan (normalize_title r.title) (r.relevance_score.getD 0) r.url seen = none) :
    pass3 ((cat, r) :: rest) seen removed
      = pass3 rest (seen ++ [(normalize_title r.title, r.url, r.relevance_score.getD 0)]) removed := by
  simp [pass3, h0, h, hs]

/-! ### Removal accumulators only grow (C4) -/

theorem pass1_removed_subset : ∀ (l : List DedupItem) (m : List ((List Char) × DedupItem))
    (removed : List (List Char)), removed ⊆ pass1 l m removed := by
  intro l
  induction l with
  | nil => intro m removed; simp [pass1]
  | cons it rest ih =>
    obtain ⟨cat, r⟩ := it
    intro m removed
    rcases hk : github_file_key r.url with _ | k'
    · rw [pass1_cons_nokey _ _ _ _ _ hk]; exact ih m removed
    · rcases hl : lookupA m k' with _ | er
      · rw [pass1_cons_miss _ _ _ _ _ _ hk hl]; exact ih _ removed
      · by_cases hw : github_org_priority (github_org r.url)
            < github_org_priority (github_org er.2.url)
        · rw [pass1_cons_win _ _ _ _ _ _ _ hk hl hw]
          exact List.Subset.trans (List.subset_cons_self _ _) (ih _ _)
        · rw [pass1_cons_lose _ _ _ _ _ _ _ hk hl hw]
          exact List.Subset.trans (List.subset_cons_self _ _) (ih _ _)

theorem pass2_removed_subset : ∀ (l : List DedupItem)
    (am im : List ((List Char) × DedupItem)) (removed : List (List Char)),
    removed ⊆ pass2 l am im removed := by
  intro l
  induction l with
  | nil => intro am im removed; simp [pass2]
  | cons it rest ih =>
    obtain ⟨cat, r⟩ := it
    intro am im removed
    by_cases h0 : r.url ∈ removed
    · rw [pass2_cons_skip _ _ _ _ _ _ h0]; exact ih am im removed
    · rcases ha : arxiv_id r.url with _ | aid
      · rcases hi : ieee_id r.url with _ | iid
        · rw [pass2_cons_none _ _ _ _ _ _ h0 ha hi]; exact ih am im removed
        · rcases hl : lookupA im iid with _ | er
          · rw [pass2_cons_iee_miss _ _ _ _ _ _ _ h0 ha hi hl]; exact ih _ _ removed
          · by_cases hw : er.2.relevance_score.getD 0 < r.relevance_score.getD 0
            · rw [pass2_cons_iee_win _ _ _ _ _ _ _ _ h0 ha hi hl hw]
              exact List.Subset.trans (List.subset_cons_self _ _) (ih _ _ _)
            · rw [pass2_cons_iee_lose _ _ _ _ _ _ _ _ h0 ha hi hl hw]
              exact List.Subset.trans (List.subset_cons_self _ _) (ih _ _ _)
      · rcases hl : lookupA am aid with _ | er
        · rw [pass2_cons_arx_miss _ _ _ _ _ _ _ h0 ha hl]; exact ih _ _ removed
        · by_cases hw : er.2.relevance_score.getD 0 < r.relevance_score.getD 0
          · rw [pass2_cons_arx_win _ _ _ _ _ _ _ _ h0 ha hl hw]
            exact List.Subset.trans (List.subset_cons_self _ _) (ih _ _ _)
          · rw [pass2_cons_arx_lose _ _ _ _ _ _ _ _ h0 ha hl hw]
            exact List.Subset.trans (List.subset_cons_self _ _) (ih _ _ _)

theorem pass3_removed_subset : ∀ (l : List DedupItem)
    (seen : List ((List Char) × (List Char) × ℚ)) (removed : List (List Char)),
    removed ⊆ pass3 l seen removed := by
  intro l
  induction l with
  | nil => intro seen removed; simp [pass3]
  | cons it rest ih =>
    obtain ⟨cat, r⟩ := it
    intro seen removed
    by_cases h0 : r.url ∈ removed
    · rw [pass3_cons_skip _ _ _ _ _ h0]; exact ih seen removed
    · by_cases hshort : (normalize_title r.title).length < 10
      · rw [pass3_cons_short _ _ _ _ _ h0 hshort]; exact ih seen removed
      · rcases hs : pass3Scan (normalize_title r.title) (r.relevance_score.getD 0) r.url seen
            with _ | u
        · rw [pass3_cons_new _ _ _ _ _ h0 hshort hs]; exact ih _ removed
        · rw [pass3_cons_hit _ _ _ _ _ _ h0 hshort hs]
          exact List.Subset.trans (List.subset_cons_self _ _) (ih _ _)

/-! ### At most one URL per file key survives pass 1 (C4) -/

theorem pass1_holder : ∀ (l : List DedupItem) (m : List ((List Char) × DedupItem))
    (removed : List (List Char)) (k : List Char) (h : DedupItem),
    lookupA m k = some h → ∀ b ∈ l, github_file_key b.2.url = some k →
    h.2.url ∈ pass1 l m removed ∨ b.2.url ∈ pass1 l m removed := by
  intro l
  induction l with
  | nil => intro m removed k h hm b hb; exact absurd hb (List.not_mem_nil b)
  | cons it rest ih =>
    obtain ⟨cat, r⟩ := it
    intro m removed k h hm b hb hkb
    rcases hk : github_file_key r.url with _ | k'
    · rw [pass1_cons_nokey _ _ _ _ _ hk]
      rcases List.mem_cons.mp hb with rfl | hb'
      · rw [hk] at hkb; cases hkb
      · exact ih m removed k h hm b hb' hkb
    · by_cases hkk : k' = k
      · subst hkk
        rcases hl : lookupA m k' with _ | er
        · rw [hm] at hl; cases hl
        · have her : er = h := by rw [hm] at hl; cases hl; rfl
          subst her
          by_cases hw : github_org_priority (github_org r.url)
              < github_org_priority (github_org er.2.url)
          · rw [pass1_cons_win _ _ _ _ _ _ _ hk hl hw]
            exact Or.inl (pass1_removed_subset _ _ _ (List.mem_cons_self _ _))
          · rw [pass1_cons_lose _ _ _ _ _ _ _ hk hl hw]
            rcases List.mem_cons.mp hb with rfl | hb'
            · exact Or.inr (pass1_removed_subset _ _ _ (List.mem_cons_self _ _))
            · exact ih m _ k' er hl b hb' hkb
      · rcases hl : lookupA m k' with _ | er
        · rw [pass1_cons_miss _ _ _ _ _ _ hk hl]
          rcases List.mem_cons.mp hb with rfl | hb'
          · rw [hk] at hkb; cases hkb; exact absurd rfl hkk
          · exact ih _ removed k h (by rw [lookupA_cons_ne _ _ _ _ hkk]; exact hm) b hb' hkb
        · by_cases hw : github_org_priority (github_org r.url)
              < github_org_priority (github_org er.2.url)
          · rw [pass1_cons_win _ _ _ _ _ _ _ hk hl hw]
            rcases List.mem_cons.mp hb with rfl | hb'
            · rw [hk] at hkb; cases hkb; exact absurd rfl hkk
            · exact ih _ _ k h (by rw [lookupA_cons_ne _ _ _ _ hkk]; exact hm) b hb' hkb
          · rw [pass1_cons_lose _ _ _ _ _ _ _ hk hl hw]
            rcases List.mem_cons.mp hb with rfl | hb'
            · rw [hk] at hkb; cases hkb; exact absurd rfl hkk
            · exact ih m _ k h hm b hb' hkb

theorem pass1_pairwise : ∀ (l : List DedupItem) (m : List ((List Char) × DedupItem))
    (removed : List (List Char)),
    l.Pairwise (fun a b => ∀ k, github_file_key a.2.url = some k →
      github_file_key b.2.url = some k →
      a.2.url ∈ pass1 l m removed ∨ b.2.url ∈ pass1 l m removed) := by
  intro l
  induction l with
  | nil => intro m removed; exact List.Pairwise.nil
  | cons it rest ih =>
    obtain ⟨cat, r⟩ := it
    intro m removed
    rcases hk : github_file_key r.url with _ | k'
    · rw [pass1_cons_nokey _ _ _ _ _ hk]
      refine List.Pairwise.cons ?_ (ih m removed)
      intro b hb k hka hkb
      rw [hk] at hka; cases hka
    · rcases hl : lookupA m k' with _ | er
      · rw [pass1_cons_miss _ _ _ _ _ _ hk hl]
        refine List.Pairwise.cons ?_ (ih _ removed)
        intro b hb k hka hkb
        rw [hk] at hka; cases hka
        exact pass1_holder rest _ removed k' (cat, r) (lookupA_cons_self _ _ _) b hb hkb
      · by_cases hw : github_org_priority (github_org r.url)
            < github_org_priority (github_org er.2.url)
        · rw [pass1_cons_win _ _ _ _ _ _ _ hk hl hw]
          refine List.Pairwise.cons ?_ (ih _ _)
          intro b hb k hka hkb
          rw [hk] at hka; cases hka
          exact pass1_holder rest _ _ k' (cat, r) (lookupA_cons_self _ _ _) b hb hkb
        · rw [pass1_cons_lose _ _ _ _ _ _ _ hk hl hw]
          refine List.Pairwise.cons ?_ (ih _ _)
          intro b hb k hka hkb
          exact Or.inl (pass1_removed_subset _ _ _ (List.mem_cons_self _ _))

/-! ### At most one URL per arXiv/IEEE id survives pass 2 (C4) -/

theorem pass2_holder_arx : ∀ (l : List DedupItem) (am im : List ((List Char) × DedupItem))
    (removed : List (List Char)) (i : List Char) (h : DedupItem),
    lookupA am i = some h → ∀ b ∈ l, arxiv_id b.2.url = some i →
    h.2.url ∈ pass2 l am im removed ∨ b.2.url ∈ pass2 l am im removed := by
  intro l
  induction l with
  | nil => intro am im removed i h hm b hb; exact absurd hb (List.not_mem_nil b)
  | cons it rest ih =>
    obtain ⟨cat, r⟩ := it
    intro am im removed i h hm b hb hkb
    by_cases h0 : r.url ∈ removed
    · rw [pass2_cons_skip _ _ _ _ _ _ h0]
      rcases List.mem_cons.mp hb with rfl | hb'
      · exact Or.inr (pass2_removed_subset _ _ _ _ h0)
      · exact ih am im removed i h hm b hb' hkb
    · rcases ha : arxiv_id r.url with _ | j
      · have hbr : b ∈ rest := by
          rcases List.mem_cons.mp hb with rfl | hb'
          · rw [ha] at hkb; cases hkb
          · exact hb'
        rcases hi : ieee_id r.url with _ | iid
        · rw [pass2_cons_none _ _ _ _ _ _ h0 ha hi]
          exact ih am im removed i h hm b hbr hkb
        · rcases hl : lookupA im iid with _ | er
          · rw [pass2_cons_iee_miss _ _ _ _ _ _ _ h0 ha hi hl]
            exact ih am _ removed i h hm b hbr hkb
          · by_cases hw : er.2.relevance_score.getD 0 < r.relevance_score.getD 0
            · rw [pass2_cons_iee_win _ _ _ _ _ _ _ _ h0 ha hi hl hw]
              exact ih am _ _ i h hm b hbr hkb
            · rw [pass2_cons_iee_lose _ _ _ _ _ _ _ _ h0 ha hi hl hw]
              exact ih am im _ i h hm b hbr hkb
      · rcases hl : lookupA am j with _ | er
        · rw [pass2_cons_arx_miss _ _ _ _ _ _ _ h0 ha hl]
          by_cases hji : j = i
          · subst hji; rw [hm] at hl; cases hl
          · rcases List.mem_cons.mp hb with rfl | hb'
            · rw [ha] at hkb; cases hkb; exact absurd rfl hji
            · exact ih _ im removed i h (by rw [lookupA_cons_ne _ _ _ _ hji]; exact hm) b hb' hkb
        · by_cases hw : er.2.relevance_score.getD 0 < r.relevance_score.getD 0
          · rw [pass2_cons_arx_win _ _ _ _ _ _ _ _ h0 ha hl hw]
            by_cases hji : j = i
            · subst hji
              have her : er = h := by rw [hm] at hl; cases hl; rfl
              subst her
              exact Or.inl (pass2_removed_subset _ _ _ _ (List.mem_cons_self _ _))
            · rcases List.mem_cons.mp hb with rfl | hb'
              · rw [ha] at hkb; cases hkb; exact absurd rfl hji
              · exact ih _ im _ i h (by rw [lookupA_cons_ne _ _ _ _ hji]; exact hm) b hb' hkb
          · rw [pass2_cons_arx_lose _ _ _ _ _ _ _ _ h0 ha hl hw]
            rcases List.mem_cons.mp hb with rfl | hb'
            · exact Or.inr (pass2_removed_subset _ _ _ _ (List.mem_cons_self _ _))
            · exact ih am im _ i h hm b hb' hkb

theorem pass2_holder_iee : ∀ (l : List DedupItem) (am im : List ((List Char) × DedupItem))
    (removed : List (List Char)) (i : List Char) (h : DedupItem),
    lookupA im i = some h → ∀ b ∈ l, arxiv_id b.2.url = none → ieee_id b.2.url = some i →
    h.2.url ∈ pass2 l am im removed ∨ b.2.url ∈ pass2 l am im removed := by
  intro l
  induction l with
  | nil => intro am im removed i h hm b hb; exact absurd hb (List.not_mem_nil b)
  | cons it rest ih =>
    obtain ⟨cat, r⟩ := it
    intro am im removed i h hm b hb hab hkb
    by_cases h0 : r.url ∈ removed
    · rw [pass2_cons_skip _ _ _ _ _ _ h0]
      rcases List.mem_cons.mp hb with rfl | hb'
      · exact Or.inr (pass2_removed_subset _ _ _ _ h0)
      · exact ih am im removed i h hm b hb' hab hkb
    · rcases ha : arxiv_id r.url with _ | j
      · rcases hi : ieee_id r.url with _ | iid
        · rw [pass2_cons_none _ _ _ _ _ _ h0 ha hi]
          rcases List.mem_cons.mp hb with rfl | hb'
          · rw [hi] at hkb; cases hkb
          · exact ih am im removed i h hm b hb' hab hkb
        · rcases hl : lookupA im iid with _ | er
          · rw [pass2_cons_iee_miss _ _ _ _ _ _ _ h0 ha hi hl]
            by_cases hji : iid = i
            · subst hji; rw [hm] at hl; cases hl
            · rcases List.mem_cons.mp hb with rfl | hb'
              · rw [hi] at hkb; cases hkb; exact absurd rfl hji
              · exact ih am _ removed i h (by rw [lookupA_cons_ne _ _ _ _ hji]; exact hm) b hb' hab hkb
          · by_cases hw : er.2.relevance_score.getD 0 < r.relevance_score.getD 0
            · rw [pass2_cons_iee_win _ _ _ _ _ _ _ _ h0 ha hi hl hw]
              by_cases hji : iid = i
              · subst hji
                have her : er = h := by rw [hm] at hl; cases hl; rfl
                subst her
                exact Or.inl (pass2_removed_subset _ _ _ _ (List.mem_cons_self _ _))
              · rcases List.mem_cons.mp hb with rfl | hb'
                · rw [hi] at hkb; cases hkb; exact absurd rfl hji
                · exact ih am _ _ i h (by rw [lookupA_cons_ne _ _ _ _ hji]; exact hm) b hb' hab hkb
            · rw [pass2_cons_iee_lose _ _ _ _ _ _ _ _ h0 ha hi hl hw]
              rcases List.mem_cons.mp hb with rfl | hb'
              · exact Or.inr (pass2_removed_subset _ _ _ _ (List.mem_cons_self _ _))
              · exact ih am im _ i h hm b hb' hab hkb
      · have hbr : b ∈ rest := by
          rcases List.mem_cons.mp hb with rfl | hb'
          · rw [ha] at hab; cases hab
          · exact hb'
        rcases hl : lookupA am j with _ | er
        · rw [pass2_cons_arx_miss _ _ _ _ _ _ _ h0 ha hl]
          exact ih _ im removed i h hm b hbr hab hkb
        · by_cases hw : er.2.relevance_score.getD 0 < r.relevance_score.getD 0
          · rw [pass2_cons_arx_win _ _ _ _ _ _ _ _ h0 ha hl hw]
            exact ih _ im _ i h hm b hbr hab hkb
          · rw [pass2_cons_arx_lose _ _ _ _ _ _ _ _ h0 ha hl hw]
            exact ih am im _ i h hm b hbr hab hkb

theorem pass2_pairwise_arx : ∀ (l : List DedupItem) (am im : List ((List Char) × DedupItem))
    (removed : List (List Char)),
    l.Pairwise (fun a b => ∀ i, arxiv_id a.2.url = some i → arxiv_id b.2.url = some i →
      a.2.url ∈ pass2 l am im removed ∨ b.2.url ∈ pass2 l am im removed) := by
  intro l
  induction l with
  | nil => intro am im removed; exact List.Pairwise.nil
  | cons it rest ih =>
    obtain ⟨cat, r⟩ := it
    intro am im removed
    by_cases h0 : r.url ∈ removed
    · rw [pass2_cons_skip _ _ _ _ _ _ h0]
      refine List.Pairwise.cons ?_ (ih am im removed)
      intro b hb i hka hkb
      exact Or.inl (pass2_removed_subset _ _ _ _ h0)
    · rcases ha : arxiv_id r.url with _ | j
      · rcases hi : ieee_id r.url with _ | iid
        · rw [pass2_cons_none _ _ _ _ _ _ h0 ha hi]
          refine List.Pairwise.cons ?_ (ih am im removed)
          intro b hb i hka hkb
          rw [ha] at hka; cases hka
        · rcases hl : lookupA im iid with _ | er
          · rw [pass2_cons_iee_miss _ _ _ _ _ _ _ h0 ha hi hl]
            refine List.Pairwise.cons ?_ (ih am _ removed)
            intro b hb i hka hkb
            rw [ha] at hka; cases hka
          · by_cases hw : er.2.relevance_score.getD 0 < r.relevance_score.getD 0
            · rw [pass2_cons_iee_win _ _ _ _ _ _ _ _ h0 ha hi hl hw]
              refine List.Pairwise.cons ?_ (ih am _ _)
              intro b hb i hka hkb
              rw [ha] at hka; cases hka
            · rw [pass2_cons_iee_lose _ _ _ _ _ _ _ _ h0 ha hi hl hw]
              refine List.Pairwise.cons ?_ (ih am im _)
              intro b hb i hka hkb
              rw [ha] at hka; cases hka
      · rcases hl : lookupA am j with _ | er
        · rw [pass2_cons_arx_miss _ _ _ _ _ _ _ h0 ha hl]
          refine List.Pairwise.cons ?_ (ih _ im removed)
          intro b hb i hka hkb
          rw [ha] at hka; cases hka
          exact pass2_holder_arx rest _ im removed j (cat, r) (lookupA_cons_self _ _ _) b hb hkb
        · by_cases hw : er.2.relevance_score.getD 0 < r.relevance_score.getD 0
          · rw [pass2_cons_arx_win _ _ _ _ _ _ _ _ h0 ha hl hw]
            refine List.Pairwise.cons ?_ (ih _ im _)
            intro b hb i hka hkb
            rw [ha] at hka; cases hka
            exact pass2_holder_arx rest _ im _ j (cat, r) (lookupA_cons_self _ _ _) b hb hkb
          · rw [pass2_cons_arx_lose _ _ _ _ _ _ _ _ h0 ha hl hw]
            refine List.Pairwise.cons ?_ (ih am im _)
            intro b hb i hka hkb
            exact Or.inl (pass2_removed_subset _ _ _ _ (List.mem_cons_self _ _))

theorem pass2_pairwise_iee : ∀ (l : List DedupItem) (am im : List ((List Char) × DedupItem))
    (removed : List (List Char)),
    l.Pairwise (fun a b => arxiv_id a.2.url = none → arxiv_id b.2.url = none →
      ∀ i, ieee_id a.2.url = some i → ieee_id b.2.url = some i →
      a.2.url ∈ pass2 l am im removed ∨ b.2.url ∈ pass2 l am im removed) := by
  intro l
  induction l with
  | nil => intro am im removed; exact List.Pairwise.nil
  | cons it rest ih =>
    obtain ⟨cat, r⟩ := it
    intro am im removed
    by_cases h0 : r.url ∈ removed
    · rw [pass2_cons_skip _ _ _ _ _ _ h0]
      refine List.Pairwise.cons ?_ (ih am im removed)
      intro b hb hana hbna i hia hib
      exact Or.inl (pass2_removed_subset _ _ _ _ h0)
    · rcases ha : arxiv_id r.url with _ | j
      · rcases hi : ieee_id r.url with _ | iid
        · rw [pass2_cons_none _ _ _ _ _ _ h0 ha hi]
          refine List.Pairwise.cons ?_ (ih am im removed)
          intro b hb hana hbna i hia hib
          rw [hi] at hia; cases hia
        · rcases hl : lookupA im iid with _ | er
          · rw [pass2_cons_iee_miss _ _ _ _ _ _ _ h0 ha hi hl]
            refine List.Pairwise.cons ?_ (ih am _ removed)
            intro b hb hana hbna i hia hib
            rw [hi] at hia; cases hia
            exact pass2_holder_iee rest am _ removed iid (cat, r) (lookupA_cons_self _ _ _)
              b hb hbna hib
          · by_cases hw : er.2.relevance_score.getD 0 < r.relevance_score.getD 0
            · rw [pass2_cons_iee_win _ _ _ _ _ _ _ _ h0 ha hi hl hw]
              refine List.Pairwise.cons ?_ (ih am _ _)
              intro b hb hana hbna i hia hib
              rw [hi] at hia; cases hia
              exact pass2_holder_iee rest am _ _ iid (cat, r) (lookupA_cons_self _ _ _)
                b hb hbna hib
            · rw [pass2_cons_iee_lose _ _ _ _ _ _ _ _ h0 ha hi hl hw]
              refine List.Pairwise.cons ?_ (ih am im _)
              intro b hb hana hbna i hia hib
              exact Or.inl (pass2_removed_subset _ _ _ _ (List.mem_cons_self _ _))
      · rcases hl : lookupA am j with _ | er
        · rw [pass2_cons_arx_miss _ _ _ _ _ _ _ h0 ha hl]
          refine List.Pairwise.cons ?_ (ih _ im removed)
          intro b hb hana hbna i hia hib
          rw [ha] at hana; cases hana
        · by_cases hw : er.2.relevance_score.getD 0 < r.relevance_score.getD 0
          · rw [pass2_cons_arx_win _ _ _ _ _ _ _ _ h0 ha hl hw]
            refine List.Pairwise.cons ?_ (ih _ im _)
            intro b hb hana hbna i hia hib
            rw [ha] at hana; cases hana
          · rw [pass2_cons_arx_lose _ _ _ _ _ _ _ _ h0 ha hl hw]
            refine List.Pairwise.cons ?_ (ih am im _)
            intro b hb hana hbna i hia hib
            rw [ha] at hana; cases hana

/-! ### On a pool without duplicates the passes remove nothing (C4) -/

theorem pass1_no_removal : ∀ (l : List DedupItem) (m : List ((List Char) × DedupItem))
    (removed : List (List Char)),
    (∀ b ∈ l, ∀ k, github_file_key b.2.url = some k → lookupA m k = none) →
    l.Pairwise (fun a b => ∀ k, github_file_key a.2.url = some k →
      github_file_key b.2.url = some k → False) →
    pass1 l m removed = removed := by
  intro l
  induction l with
  | nil => intro m removed hm hpw; simp [pass1]
  | cons it rest ih =>
    obtain ⟨cat, r⟩ := it
    intro m removed hm hpw
    rcases List.pairwise_cons.mp hpw with ⟨hhd, htl⟩
    rcases hk : github_file_key r.url with _ | k'
    · rw [pass1_cons_nokey _ _ _ _ _ hk]
      exact ih m removed (fun b hb => hm b (List.mem_cons_of_mem _ hb)) htl
    · rw [pass1_cons_miss _ _ _ _ _ _ hk (hm _ (List.mem_cons_self _ _) k' hk)]
      refine ih _ removed ?_ htl
      intro b hb k hkb
      by_cases hkk : k' = k
      · subst hkk; exact absurd hkb (fun hkb => hhd b hb k' hk hkb)
      · rw [lookupA_cons_ne _ _ _ _ hkk]
        exact hm b (List.mem_cons_of_mem _ hb) k hkb

theorem pass2_no_removal : ∀ (l : List DedupItem) (am im : List ((List Char) × DedupItem))
    (removed : List (List Char)),
    (∀ b ∈ l, ∀ i, arxiv_id b.2.url = some i → lookupA am i = none) →
    (∀ b ∈ l, arxiv_id b.2.url = none → ∀ i, ieee_id b.2.url = some i → lookupA im i = none) →
    l.Pairwise (fun a b => ∀ i, arxiv_id a.2.url = some i →
      arxiv_id b.2.url = some i → False) →
    l.Pairwise (fun a b => arxiv_id a.2.url = none → arxiv_id b.2.url = none →
      ∀ i, ieee_id a.2.url = some i → ieee_id b.2.url = some i → False) →
    pass2 l am im removed = removed := by
  intro l
  induction l with
  | nil => intro am im removed hma hmi hpa hpi; simp [pass2]
  | cons it rest ih =>
    obtain ⟨cat, r⟩ := it
    intro am im removed hma hmi hpa hpi
    rcases List.pairwise_cons.mp hpa with ⟨hhda, htla⟩
    rcases List.pairwise_cons.mp hpi with ⟨hhdi, htli⟩
    by_cases h0 : r.url ∈ removed
    · rw [pass2_cons_skip _ _ _ _ _ _ h0]
      exact ih am im removed (fun b hb => hma b (List.mem_cons_of_mem _ hb))
        (fun b hb => hmi b (List.mem_cons_of_mem _ hb)) htla htli
    · rcases ha : arxiv_id r.url with _ | j
      · rcases hi : ieee_id r.url with _ | iid
        · rw [pass2_cons_none _ _ _ _ _ _ h0 ha hi]
          exact ih am im removed (fun b hb => hma b (List.mem_cons_of_mem _ hb))
            (fun b hb => hmi b (List.mem_cons_of_mem _ hb)) htla htli
        · rw [pass2_cons_iee_miss _ _ _ _ _ _ _ h0 ha hi
            (hmi _ (List.mem_cons_self _ _) ha iid hi)]
          refine ih am _ removed (fun b hb => hma b (List.mem_cons_of_mem _ hb)) ?_ htla htli
          intro b hb hbna i hib
          by_cases hji : iid = i
          · subst hji; exact absurd hib (fun hib => hhdi b hb ha hbna iid hi hib)
          · rw [lookupA_cons_ne _ _ _ _ hji]
            exact hmi b (List.mem_cons_of_mem _ hb) hbna i hib
      · rw [pass2_cons_arx_miss _ _ _ _ _ _ _ h0 ha (hma _ (List.mem_cons_self _ _) j ha)]
        refine ih _ im removed ?_ (fun b hb => hmi b (List.mem_cons_of_mem _ hb)) htla htli
        intro b hb i hib
        by_cases hji : j = i
        · subst hji; exact absurd hib (fun hib => hhda b hb j ha hib)
        · rw [lookupA_cons_ne _ _ _ _ hji]
          exact hma b (List.mem_cons_of_mem _ hb) i hib

theorem pass3Scan_none (t : List Char) (score : ℚ) (url : List Char) :
    ∀ (seen : List ((List Char) × (List Char) × ℚ)),
    (∀ e ∈ seen, ¬(mkRat 9 10 < sm_ratio t e.1)) →
    pass3Scan t score url seen = none := by
  intro seen
  induction seen with
  | nil => intro hs; rfl
  | cons e rest ih =>
    obtain ⟨et, eu, es⟩ := e
    intro hs
    have hne : ¬(mkRat 9 10 < sm_ratio t et) := hs _ (List.mem_cons_self _ _)
    simp only [pass3Scan, hne, if_false]
    exact ih (fun e he => hs e (List.mem_cons_of_mem _ he))

theorem pass3_no_removal : ∀ (l : List DedupItem)
    (seen : List ((List Char) × (List Char) × ℚ)) (removed : List (List Char)),
    (∀ b ∈ l, ∀ e ∈ seen, ¬(mkRat 9 10 < sm_ratio (normalize_title b.2.title) e.1)) →
    l.Pairwise (fun a b =>
      ¬(mkRat 9 10 < sm_ratio (normalize_title b.2.title) (normalize_title a.2.title))) →
    pass3 l seen removed = removed := by
  intro l
  induction l with
  | nil => intro seen removed hs hpw; simp [pass3]
  | cons it rest ih =>
    obtain ⟨cat, r⟩ := it
    intro seen removed hs hpw
    rcases List.pairwise_cons.mp hpw with ⟨hhd, htl⟩
    by_cases h0 : r.url ∈ removed
    · rw [pass3_cons_skip _ _ _ _ _ h0]
      exact ih seen removed (fun b hb => hs b (List.mem_cons_of_mem _ hb)) htl
    · by_cases hshort : (normalize_title r.title).length < 10
      · rw [pass3_cons_short _ _ _ _ _ h0 hshort]
        exact ih seen removed (fun b hb => hs b (List.mem_cons_of_mem _ hb)) htl
      · have hsc : ∀ e ∈ seen, ¬(mkRat 9 10 < sm_ratio (normalize_title r.title) e.1) :=
          hs (cat, r) (List.mem_cons_self _ _)
        rw [pass3_cons_new _ _ _ _ _ h0 hshort
          (pass3Scan_none (normalize_title r.title) (r.relevance_score.getD 0) r.url seen hsc)]
        refine ih _ removed ?_ htl
        intro b hb e he
        rcases List.mem_append.mp he with he' | he'
        · exact hs b (List.mem_cons_of_mem _ hb) e he'
        · rcases List.mem_singleton.mp he' with rfl
          exact hhd b hb

theorem flattenResults_cons (p : (List Char) × List SResult)
    (rest : List ((List Char) × List SResult)) :
    flattenResults (p :: rest) = p.2.map (fun r => (p.1, r)) ++ flattenResults rest := by
  simp [flattenResults]

theorem flattenResults_filter (c : SResult → Bool) :
    ∀ (results : List ((List Char) × List SResult)),
    flattenResults (results.map (fun p => (p.1, p.2.filter c)))
      = (flattenResults results).filter (fun it => c it.2) := by
  intro results
  induction results with
  | nil => rfl
  | cons p rest ih =>
    rw [List.map_cons, flattenResults_cons, flattenResults_cons, List.filter_append, ih]
    congr 1
    rw [List.filter_map]
    rfl

/-- C4 (amended): `deduplicate_results` is idempotent on every pool in which no
two records have fuzzily-similar titles (`SequenceMatcher` ratio of the later
title against the earlier normalized title at most 0.9); the unconditional
claim fails because Pass 3 removes a previously registered title's URL without
registering the surviving title. -/
theorem c4_dedup_idempotent (results : List ((List Char) × List SResult))
    (hsim : (flattenResults results).Pairwise
      (fun a b => ¬(mkRat 9 10 < sm_ratio (normalize_title b.2.title)
        (normalize_title a.2.title)))) :
    deduplicate_results (deduplicate_results results) = deduplicate_results results := by
  have h3 : pass3 (flattenResults results) []
      (pass2 (flattenResults results) [] [] (pass1 (flattenResults results) [] []))
      = pass2 (flattenResults results) [] [] (pass1 (flattenResults results) [] []) :=
    pass3_no_removal _ _ _ (fun b hb e he => absurd he (List.not_mem_nil e)) hsim
  have hded : deduplicate_results results
      = results.map (fun p => (p.1, p.2.filter (fun r => !(decide (r.url ∈
          pass2 (flattenResults results) [] [] (pass1 (flattenResults results) [] [])))))) := by
    show results.map (fun p => (p.1, p.2.filter (fun r => !(decide (r.url ∈
        pass3 (flattenResults results) []
          (pass2 (flattenResults results) [] [] (pass1 (flattenResults results) [] []))))))) = _
    rw [h3]
  have hpool2 : flattenResults (deduplicate_results results)
      = (flattenResults results).filter (fun it => !(decide (it.2.url ∈
          pass2 (flattenResults results) [] [] (pass1 (flattenResults results) [] [])))) := by
    rw [hded]; exact flattenResults_filter _ results
  have hsub : (flattenResults (deduplicate_results results)).Sublist (flattenResults results) := by
    rw [hpool2]; exact List.filter_sublist _
  have hmem : ∀ it ∈ flattenResults (deduplicate_results results),
      ¬(it.2.url ∈ pass2 (flattenResults results) [] [] (pass1 (flattenResults results) [] [])) := by
    intro it hit
    rw [hpool2] at hit
    have hpred := (List.mem_filter.mp hit).2
    simpa using hpred
  have hkey : (flattenResults (deduplicate_results results)).Pairwise
      (fun a b => ∀ k, github_file_key a.2.url = some k →
        github_file_key b.2.url = some k → False) := by
    have hpw := List.Pairwise.sublist hsub (pass1_pairwise (flattenResults results) [] [])
    refine List.Pairwise.imp_of_mem ?_ hpw
    intro a b hamem hbmem hrel k hka hkb
    rcases hrel k hka hkb with h | h
    · exact hmem a hamem (pass2_removed_subset _ _ _ _ h)
    · exact hmem b hbmem (pass2_removed_subset _ _ _ _ h)
  have harx : (flattenResults (deduplicate_results results)).Pairwise
      (fun a b => ∀ i, arxiv_id a.2.url = some i → arxiv_id b.2.url = some i → False) := by
    have hpw := List.Pairwise.sublist hsub
      (pass2_pairwise_arx (flattenResults results) [] [] (pass1 (flattenResults results) [] []))
    refine List.Pairwise.imp_of_mem ?_ hpw
    intro a b hamem hbmem hrel i hia hib
    rcases hrel i hia hib with h | h
    · exact hmem a hamem h
    · exact hmem b hbmem h
  have hiee : (flattenResults (deduplicate_results results)).Pairwise
      (fun a b => arxiv_id a.2.url = none → arxiv_id b.2.url = none →
        ∀ i, ieee_id a.2.url = some i → ieee_id b.2.url = some i → False) := by
    have hpw := List.Pairwise.sublist hsub
      (pass2_pairwise_iee (flattenResults results) [] [] (pass1 (flattenResults results) [] []))
    refine List.Pairwise.imp_of_mem ?_ hpw
    intro a b hamem hbmem hrel hana hbna i hia hib
    rcases hrel hana hbna i hia hib with h | h
    · exact hmem a hamem h
    · exact hmem b hbmem h
  have hsim2 := List.Pairwise.sublist hsub hsim
  have h1 : pass1 (flattenResults (deduplicate_results results)) [] [] = [] :=
    pass1_no_removal _ [] [] (fun b hb k hk => rfl) hkey
  have h2 : pass2 (flattenResults (deduplicate_results results)) [] [] [] = [] :=
    pass2_no_removal _ [] [] [] (fun b hb i hi => rfl) (fun b hb hbn i hi => rfl) harx hiee
  have h3b : pass3 (flattenResults (deduplicate_results results)) [] [] = [] :=
    pass3_no_removal _ [] [] (fun b hb e he => absurd he (List.not_mem_nil e)) hsim2
  show (deduplicate_results results).map (fun p => (p.1, p.2.filter (fun r => !(decide (r.url ∈
      pass3 (flattenResults (deduplicate_results results)) []
        (pass2 (flattenResults (deduplicate_results results)) [] []
          (pass1 (flattenResults (deduplicate_results results)) [] []))))))) = _
  rw [h1, h2, h3b]
  have hfe : ∀ l : List SResult,
      l.filter (fun r => !(decide (r.url ∈ ([] : List (List Char))))) = l := by
    intro l
    refine List.filter_eq_self.mpr ?_
    intro a _
    simp
  simp only [hfe]
  simp

set_option maxRecDepth 10000 in
/-- C4 counterexample: a pool of three same-category records with pairwise
fuzzily-similar titles on which running `deduplicate_results` twice removes
strictly more than running it once.  In the first run the title
`aaaaaaaaaaa` (score 1) evicts the registered `aaaaaaaaaa` (score 1/2)
without registering itself, so `aaaaaaaaaaaaa` (ratio 20/23 ≤ 0.9 against
the only registered title) survives; the second run registers `aaaaaaaaaaa`
and removes `aaaaaaaaaaaaa` (ratio 11/12 > 0.9). -/
theorem c4_counterexample :
    deduplicate_results (deduplicate_results
      [(("c").toList,
        [⟨("aaaaaaaaaa").toList, ("https://ex.com/a1").toList, [], [], [],
          some (mkRat 1 2), none, false⟩,
         ⟨("aaaaaaaaaaa").toList, ("https://ex.com/a2").toList, [], [], [],
          some (mkRat 1 1), none, false⟩,
         ⟨("aaaaaaaaaaaaa").toList, ("https://ex.com/a3").toList, [], [], [],
          some (mkRat 0 1), none, false⟩])])
    ≠ deduplicate_results
      [(("c").toList,
        [⟨("aaaaaaaaaa").toList, ("https://ex.com/a1").toList, [], [], [],
          some (mkRat 1 2), none, false⟩,
         ⟨("aaaaaaaaaaa").toList, ("https://ex.com/a2").toList, [], [], [],
          some (mkRat 1 1), none, false⟩,
         ⟨("aaaaaaaaaaaaa").toList, ("https://ex.com/a3").toList, [], [], [],
          some (mkRat 0 1), none, false⟩])] := by
  decide

/-- Witness for C4 (amended): a two-record pool with a shared GitHub file key
but dissimilar titles — the first run removes the `orgA` fork, the second run
changes nothing. -/
theorem c4_dedup_idempotent_witness :
    deduplicate_results (deduplicate_results
      [(("c1").toList,
        [⟨("bbbbbbbbbb").toList,
          ("https://github.com/orgA/repo/blob/main/atomics/T1003/T1003.yaml").toList,
          [], [], [], some (mkRat 1 2), none, false⟩,
         ⟨("cccccccccc").toList,
          ("https://github.com/redcanaryco/repo2/blob/main/atomics/T1003/T1003.yaml").toList,
          [], [], [], some (mkRat 1 1), none, false⟩])])
    = deduplicate_results
      [(("c1").toList,
        [⟨("bbbbbbbbbb").toList,
          ("https://github.com/orgA/repo/blob/main/atomics/T1003/T1003.yaml").toList,
          [], [], [], some (mkRat 1 2), none, false⟩,
         ⟨("cccccccccc").toList,
          ("https://github.com/redcanaryco/repo2/blob/main/atomics/T1003/T1003.yaml").toList,
          [], [], [], some (mkRat 1 1), none, false⟩])] :=
  c4_dedup_idempotent _ (by decide)

/-! ### Cross-category URL disjointness (C5) -/

theorem dedupFilterCat_not_global (g : List (List Char)) :
    ∀ (l : List SResult) (s : List (List Char)) (r : SResult),
      r ∈ (dedupFilterCat g l s).1 → ¬(r.url ∈ g) := by
  intro l
  induction l with
  | nil => intro s r h; simp [dedupFilterCat] at h
  | cons x xs ih =>
    intro s r h
    simp only [dedupFilterCat] at h
    by_cases h1 : x.url ∈ s ∨ x.url ∈ g
    · rw [if_pos h1] at h
      exact ih _ _ h
    · rw [if_neg h1] at h
      by_cases h2 : is_generic_landing_page x.url = true
      · rw [if_pos h2] at h
        exact ih _ _ h
      · rw [if_neg h2] at h
        rcases List.mem_cons.mp h with rfl | h'
        · exact fun hg => h1 (Or.inr hg)
        · exact ih _ _ h'

theorem dedupFilterCat_seen_grows (g : List (List Char)) :
    ∀ (l : List SResult) (s : List (List Char)), s ⊆ (dedupFilterCat g l s).2 := by
  intro l
  induction l with
  | nil => intro s; simp [dedupFilterCat]
  | cons x xs ih =>
    intro s
    simp only [dedupFilterCat]
    by_cases h1 : x.url ∈ s ∨ x.url ∈ g
    · rw [if_pos h1]; exact ih s
    · rw [if_neg h1]
      by_cases h2 : is_generic_landing_page x.url = true
      · rw [if_pos h2]; exact ih s
      · rw [if_neg h2]
        exact List.Subset.trans (List.subset_cons_self _ _) (ih (x.url :: s))

theorem dedupFilterCat_url_seen (g : List (List Char)) :
    ∀ (l : List SResult) (s : List (List Char)) (r : SResult),
      r ∈ (dedupFilterCat g l s).1 → r.url ∈ (dedupFilterCat g l s).2 := by
  intro l
  induction l with
  | nil => intro s r h; simp [dedupFilterCat] at h
  | cons x xs ih =>
    intro s r h
    simp only [dedupFilterCat] at h ⊢
    by_cases h1 : x.url ∈ s ∨ x.url ∈ g
    · rw [if_pos h1] at h ⊢
      exact ih _ _ h
    · rw [if_neg h1] at h ⊢
      by_cases h2 : is_generic_landing_page x.url = true
      · rw [if_pos h2] at h ⊢
        exact ih _ _ h
      · rw [if_neg h2] at h ⊢
        rcases List.mem_cons.mp h with rfl | h'
        · exact dedupFilterCat_seen_grows g xs _ (List.mem_cons_self _ _)
        · exact ih _ _ h'

theorem stsGo_not_global (srch : List Char → ℕ → List RawResult)
    (tid tname sn extra : List Char) (mrd t1set : List (List Char)) (mpc : ℕ) :
    ∀ (cats : List ((List Char) × CatCfg)) (gseen : List (List Char))
      (p : (List Char) × List SResult) (r : SResult),
      p ∈ stsGo srch tid tname sn extra mrd t1set mpc cats gseen →
      r ∈ p.2 → ¬(r.url ∈ gseen) := by
  intro cats
  induction cats with
  | nil => intro gseen p r h; simp [stsGo] at h
  | cons c rest ih =>
    obtain ⟨cname, cfg⟩ := c
    intro gseen p r hp hr
    simp only [stsGo, List.mem_cons] at hp
    rcases hp with hp | hp
    · subst hp
      have h1 : r ∈ (dedupFilterCat gseen _ []).1 := (List.take_sublist _ _).subset hr
      exact dedupFilterCat_not_global _ _ _ _ h1
    · intro hg
      exact ih _ _ _ hp hr (List.mem_append_left _ hg)

theorem stsGo_pairwise (srch : List Char → ℕ → List RawResult)
    (tid tname sn extra : List Char) (mrd t1set : List (List Char)) (mpc : ℕ) :
    ∀ (cats : List ((List Char) × CatCfg)) (gseen : List (List Char)),
      (stsGo srch tid tname sn extra mrd t1set mpc cats gseen).Pairwise
        (fun p q => ∀ r ∈ p.2, ∀ r' ∈ q.2, ¬(r.url = r'.url)) := by
  intro cats
  induction cats with
  | nil => intro gseen; simp [stsGo]
  | cons c rest ih =>
    obtain ⟨cname, cfg⟩ := c
    intro gseen
    simp only [stsGo]
    refine List.Pairwise.cons ?_ (ih _)
    intro q hq r hr r' hr' hurl
    have h1 : r ∈ (dedupFilterCat gseen _ []).1 := (List.take_sublist _ _).subset hr
    have h2 := dedupFilterCat_url_seen _ _ _ _ h1
    have h3 := stsGo_not_global srch tid tname sn extra mrd t1set mpc rest _ q r' hq hr'
    rw [hurl] at h2
    exact h3 (List.mem_append_right _ h2)

theorem pairwise_url_disjoint_map (f : ((List Char) × List SResult) → ((List Char) × List SResult))
    (hf : ∀ p, ∀ r' ∈ (f p).2, ∃ r ∈ p.2, r'.url = r.url) :
    ∀ (L : List ((List Char) × List SResult)),
    L.Pairwise (fun p q => ∀ r ∈ p.2, ∀ r' ∈ q.2, ¬(r.url = r'.url)) →
    (L.map f).Pairwise (fun p q => ∀ r ∈ p.2, ∀ r' ∈ q.2, ¬(r.url = r'.url)) := by
  intro L h
  rw [List.pairwise_map]
  refine h.imp ?_
  intro a b hab r hr r' hr'
  obtain ⟨ra, hra, hrae⟩ := hf a r hr
  obtain ⟨rb, hrb, hrbe⟩ := hf b r' hr'
  rw [hrae, hrbe]
  exact hab ra hra rb hrb

/-- C5 — cross-category uniqueness: after the full pipeline — two-tier
search with first-claim-wins cross-category URL claiming
(`search_technique_sources`), scoring/sorting/threshold filtering
(`score_sort_filter`), and the deduplication pass (`deduplicate_results`) —
no URL string appears in two different categories' final result sets: the
final mapping is pairwise URL-disjoint.  Each later stage only shrinks each
category's URL set, and the search stage threads every kept URL through
`global_seen_urls`, which later categories test before keeping a result. -/
theorem c5_cross_category_unique (srch : List Char → ℕ → List RawResult)
    (tid tname : List Char) (cats : List ((List Char) × CatCfg)) (mpc : ℕ)
    (extra_terms : List Char) (mitre_urls tier1 : List (List Char))
    (mitre : List (List Char)) (ts : List ((List Char) × CatCfg)) (ms : ℚ) :
    (deduplicate_results
      ((score_sort_filter
          (search_technique_sources srch tid tname cats mpc extra_terms mitre_urls tier1)
          tid tname mitre ts ms).1)).Pairwise
      (fun p q => ∀ r ∈ p.2, ∀ r' ∈ q.2, ¬(r.url = r'.url)) := by
  have h0 : (search_technique_sources srch tid tname cats mpc extra_terms mitre_urls tier1).Pairwise
      (fun p q => ∀ r ∈ p.2, ∀ r' ∈ q.2, ¬(r.url = r'.url)) :=
    stsGo_pairwise srch tid tname _ _ _ tier1 mpc cats []
  have h1 : (score_sort_filter
        (search_technique_sources srch tid tname cats mpc extra_terms mitre_urls tier1)
        tid tname mitre ts ms).1
      = (search_technique_sources srch tid tname cats mpc extra_terms mitre_urls tier1).map
          (fun p => (p.1, (sortScoreDesc (p.2.map (scored_one tid tname mitre ts))).filter
            (fun r => decide (ms ≤ r.relevance_score.getD 0)))) := by
    rw [score_sort_filter_eq]
  have h2 := pairwise_url_disjoint_map
    (fun p => (p.1, (sortScoreDesc (p.2.map (scored_one tid tname mitre ts))).filter
      (fun r => decide (ms ≤ r.relevance_score.getD 0))))
    (by
      intro p r' hr'
      have hm := List.mem_of_mem_filter hr'
      have hperm := sortScoreDesc_perm (p.2.map (scored_one tid tname mitre ts))
      have hmm := hperm.mem_iff.mp hm
      obtain ⟨r, hrmem, rfl⟩ := List.mem_map.mp hmm
      exact ⟨r, hrmem, rfl⟩)
    (search_technique_sources srch tid tname cats mpc extra_terms mitre_urls tier1) h0
  rw [h1]
  exact pairwise_url_disjoint_map _
    (fun p r' hr' => ⟨r', List.mem_of_mem_filter hr', rfl⟩) _ h2
